import Mathlib

/-!
Verification of the tile-grid resolution engine underlying the three games
(cute_number_crush.py, number_smash.py, number_stack.py).

Grids are modelled as lists of rows, each row a list of cells.  A cell holds
an `Option Nat`: `some v` is a tile of type `v`, `none` is the empty sentinel
(Python `None`).  Randomness (`random.choice` / `random.randint`) is modelled
by an injected value stream `s : Nat → Nat` together with a cursor that is
threaded through the operations in draw order, mirroring Python's single
sequential random generator.
-/

/-- A grid: list of rows, each row a list of optional cell values. -/
abbrev Grid := List (List (Option Nat))

/-- Number of columns, read off the first row (Python keeps `self.cols`;
for the rectangular grids the games build, every row has this length). -/
def width (g : Grid) : Nat :=
  match g with
  | [] => 0
  | row :: _ => row.length

/-- The grid is rectangular: every row has length `width g`. -/
def Rect (g : Grid) : Prop := ∀ row ∈ g, row.length = width g

instance (g : Grid) : Decidable (Rect g) := by
  unfold Rect; infer_instance

/-- Cell access `grid[r][c]`, with an out-of-range default (the games only
read in-bounds cells). -/
def cellAt (g : Grid) (r c : Nat) : Option Nat :=
  (g.getD r []).getD c none

/-- Write one cell: `grid[r][c] = v`. -/
def setCell (g : Grid) (r c : Nat) (v : Option Nat) : Grid :=
  g.set r ((g.getD r []).set c v)

/-- Column `c` of the grid, top to bottom (Python reads `grid[r][c]` for
`r` in range). -/
def column (g : Grid) (c : Nat) : List (Option Nat) :=
  g.map (fun row => row.getD c none)

/-! ### Run scanning (cute_number_crush.py, Board.find_matches)

The Python scan walks an index along a row; the inner `while` advances while
the cell value stays equal, giving the length of the maximal run that starts
at the current index.  `runLen t l` is that inner while loop: the number of
leading elements of `l` equal to `t`. -/

/-- Inner while loop of the scan: length of the equal prefix. -/
def runLen {α : Type} [DecidableEq α] (t : α) : List α → Nat
  | [] => 0
  | x :: xs => if x = t then runLen t xs + 1 else 0

/-- Row scan from offset `off`: detect the maximal run starting at the head,
mark it when its length is at least 3, continue after it.  This is the
outer `while c < self.cols` loop of `Board.find_matches`.  The structural
fuel argument only bounds the number of loop iterations; every iteration
consumes at least one element, so `l.length` fuel is always enough. -/
def scanRowAux {α : Type} [DecidableEq α] : Nat → List α → Nat → Finset Nat
  | 0, _, _ => ∅
  | _ + 1, [], _ => ∅
  | fuel + 1, t :: rest, off =>
    (if 3 ≤ runLen t rest + 1
      then Finset.Ico off (off + (runLen t rest + 1)) else ∅) ∪
      scanRowAux fuel (rest.drop (runLen t rest)) (off + (runLen t rest + 1))

/-- The full scan of one line. -/
def scanRow {α : Type} [DecidableEq α] (l : List α) : Finset Nat :=
  scanRowAux l.length l 0

/-- `[a, b)` is a maximal run of equal values in `l`:  nonempty, in range,
constant, and not extendable on either side. -/
def IsMaxRun {α : Type} (l : List α) (a b : Nat) : Prop :=
  a < b ∧ b ≤ l.length ∧
    ∃ t, (∀ i, a ≤ i → i < b → l[i]? = some t) ∧
      (a = 0 ∨ l[a - 1]? ≠ some t) ∧
      (b = l.length ∨ l[b]? ≠ some t)

/-- Position `c` lies inside a maximal run of length at least 3. -/
def InMaxRun3 {α : Type} (l : List α) (c : Nat) : Prop :=
  ∃ a b, IsMaxRun l a b ∧ 3 ≤ b - a ∧ a ≤ c ∧ c < b

/-- The scan resumes only at positions where a run cannot extend leftwards. -/
def LeftBoundary {α : Type} (F : List α) (off : Nat) : Prop :=
  off = 0 ∨ ∀ t, F[off]? = some t → F[off - 1]? ≠ some t

/-- `Board.find_matches`: horizontal scan of every row plus vertical scan of
every column; the union of both coordinate sets (a Python `set`, so a cell
matched in both directions appears once). -/
def find_matches (g : Grid) : Finset (Nat × Nat) :=
  ((Finset.range g.length).biUnion
      (fun r => (scanRow (g.getD r [])).image (fun c => (r, c)))) ∪
    ((Finset.range (width g)).biUnion
      (fun c => (scanRow (column g c)).image (fun r => (r, c))))

/-- The tile alphabet `TILE_TYPES = list(range(6))`. -/
def TILE_TYPES : List Nat := List.range 6

/-- `random.choice(TILE_TYPES)`: the stream value selects an element of the
alphabet. -/
def choice (s : Nat → Nat) (i : Nat) : Nat :=
  TILE_TYPES.getD (s i % TILE_TYPES.length) 0

/-- `BASE_SCORE_PER_TILE = 10`. -/
def BASE_SCORE_PER_TILE : Nat := 10

/-- One column of `Board.remove_and_collapse` after marking: Python pushes the
non-`None` cells bottom-to-top on `stack` and refills bottom-up with
`stack.pop(0)`, so the surviving values (`kept`, top-to-bottom) land in the
bottom `kept.length` rows in their original order; the `m` vacated top rows
get fresh random tiles, the bottom-most vacated row receiving the earliest
draw.  Returns the new column and the advanced draw cursor. -/
def collapseColumn (s : Nat → Nat) (col : List (Option Nat)) (i : Nat) :
    List (Option Nat) × Nat :=
  let kept := col.filterMap id
  let m := col.length - kept.length
  (((List.range m).reverse.map (fun j => some (choice s (i + j)))) ++
      kept.map some,
    i + m)

/-- Column `c` of the grid after the marking phase of `remove_and_collapse`
(`grid[r][c] = None` for every coordinate in `remove_coords`). -/
def markedColumn (g : Grid) (coords : Finset (Nat × Nat)) (c : Nat) :
    List (Option Nat) :=
  (List.range g.length).map
    (fun r => if (r, c) ∈ coords then none else cellAt g r c)

/-- Collapse the given columns left to right, threading the draw cursor. -/
def collapseCols (s : Nat → Nat) (g : Grid) (coords : Finset (Nat × Nat)) :
    List Nat → Nat → List (List (Option Nat)) × Nat
  | [], i => ([], i)
  | c :: cs, i =>
    let r1 := collapseColumn s (markedColumn g coords c) i
    let rest := collapseCols s g coords cs r1.2
    (r1.1 :: rest.1, rest.2)

/-- Reassemble a grid (list of rows) from a list of columns. -/
def fromCols (cols : List (List (Option Nat))) (rows : Nat) : Grid :=
  (List.range rows).map (fun r => cols.map (fun col => col.getD r none))

/-- `Board.remove_and_collapse`: mark the given coordinates as `None`
(counting the tiles actually removed), then collapse and refill every column.
Returns the new grid, the removal count, and the advanced draw cursor. -/
def remove_and_collapse (s : Nat → Nat) (g : Grid)
    (coords : Finset (Nat × Nat)) (i : Nat) : Grid × Nat × Nat :=
  let removed := (coords.filter (fun p => cellAt g p.1 p.2 ≠ none)).card
  let cc := collapseCols s g coords (List.range (width g)) i
  (fromCols cc.1 g.length, removed, cc.2)

/-- `Board.swap`: exchange the two cell values in place. -/
def swap (g : Grid) (r1 c1 r2 c2 : Nat) : Grid :=
  let t1 := cellAt g r1 c1
  let t2 := cellAt g r2 c2
  setCell (setCell g r1 c1 t2) r2 c2 t1

/-! ### The cascade loops (cute_number_crush.py, CandyLikeGame) -/

/-- Result of one run of `find_and_resolve_matches`.  `final` is `some` of
the stabilized grid if the `while True` loop exited within the given fuel,
`none` if the fuel ran out with matches still present (the Python loop is
unbounded: it has no iteration cap). -/
structure ResolveResult where
  final : Option Grid
  totalRemoved : Nat
  scoreDelta : Nat
  removedPerStep : List Nat
  cursor : Nat
  deriving DecidableEq, Repr

/-- `CandyLikeGame.find_and_resolve_matches`: repeatedly find matches,
remove/collapse, and accumulate `removed * BASE_SCORE_PER_TILE * chain` into
the score, where `chain` counts the cascade steps from 1. -/
def find_and_resolve_matches (s : Nat → Nat) :
    Nat → Grid → Nat → Nat → ResolveResult
  | 0, _, i, _ => ⟨none, 0, 0, [], i⟩
  | fuel + 1, g, i, chain =>
    if find_matches g = ∅ then ⟨some g, 0, 0, [], i⟩
    else
      let rc := remove_and_collapse s g (find_matches g) i
      let rest := find_and_resolve_matches s fuel rc.1 rc.2.2 (chain + 1)
      ⟨rest.final, rc.2.1 + rest.totalRemoved,
        rc.2.1 * BASE_SCORE_PER_TILE * (chain + 1) + rest.scoreDelta,
        rc.2.1 :: rest.removedPerStep, rest.cursor⟩

/-- `CandyLikeGame.resolve_all_matches_initial`: the same loop without
scoring, run once after construction. -/
def resolve_all_matches_initial (s : Nat → Nat) :
    Nat → Grid → Nat → Option Grid × Nat
  | 0, _, i => (none, i)
  | fuel + 1, g, i =>
    if find_matches g = ∅ then (some g, i)
    else
      let rc := remove_and_collapse s g (find_matches g) i
      resolve_all_matches_initial s fuel rc.1 rc.2.2

/-! ### Initial board construction (cute_number_crush.py, Board.__init__) -/

/-- Inner while loop of `Board._is_match_at`, scanning leftwards/upwards:
count of consecutive cells equal to `t` at indices `n-1, n-2, ...`. -/
def countLeft (l : List (Option Nat)) (t : Option Nat) : Nat → Nat
  | 0 => 0
  | n + 1 => if l.getD n none = t then countLeft l t n + 1 else 0

/-- `Board._is_match_at`: does the tile at `(r, c)` sit in a horizontal or
vertical run of 3 or more (counting equal neighbours to both sides)?  Used
only during initial fill. -/
def is_match_at (g : Grid) (r c : Nat) : Bool :=
  let row := g.getD r []
  let col := column g c
  let t := cellAt g r c
  decide (3 ≤ 1 + countLeft row t c + runLen t (row.drop (c + 1))) ||
    decide (3 ≤ 1 + countLeft col t r + runLen t (col.drop (r + 1)))

/-- The `while True` re-roll loop of `Board._remove_initial_matches` for one
cell: regenerate the tile until it no longer forms a match.  The Python loop
is unbounded; fuel exhaustion is reported as `none`. -/
def rerollCell (s : Nat → Nat) : Nat → Grid → Nat → Nat → Nat → Option (Grid × Nat)
  | 0, _, _, _, _ => none
  | fuel + 1, g, r, c, i =>
    if is_match_at g r c then
      rerollCell s fuel (setCell g r c (some (choice s i))) r c (i + 1)
    else some (g, i)

/-- Row-major list of all cell coordinates (the iteration order of the two
nested `for` loops). -/
def cellsList (rows cols : Nat) : List (Nat × Nat) :=
  (List.range rows).flatMap (fun r => (List.range cols).map (fun c => (r, c)))

/-- `Board._remove_initial_matches`: visit every cell in row-major order and
re-roll it while it participates in a match. -/
def remove_initial_matches (s : Nat → Nat) (fuel : Nat) :
    List (Nat × Nat) → Grid → Nat → Option (Grid × Nat)
  | [], g, i => some (g, i)
  | p :: ps, g, i =>
    match rerollCell s fuel g p.1 p.2 i with
    | none => none
    | some gi => remove_initial_matches s fuel ps gi.1 gi.2

/-- The initial random fill of `Board.__init__` (row-major draw order). -/
def initFill (s : Nat → Nat) (rows cols i : Nat) : Grid × Nat :=
  ((List.range rows).map (fun r =>
      (List.range cols).map (fun c => some (choice s (i + r * cols + c)))),
    i + rows * cols)

/-- Board construction as the game performs it: random fill, then
`_remove_initial_matches`, then the `resolve_all_matches_initial` loop run by
`CandyLikeGame.__init__`.  `none` when a fuel bound is exhausted (the Python
loops are unbounded). -/
def initBoard (s : Nat → Nat) (rows cols fuelR fuelS : Nat) :
    Option (Grid × Nat) :=
  match remove_initial_matches s fuelR (cellsList rows cols)
      (initFill s rows cols 0).1 (initFill s rows cols 0).2 with
  | none => none
  | some gi =>
    match resolve_all_matches_initial s fuelS gi.1 gi.2 with
    | (none, _) => none
    | (some g2, i2) => some (g2, i2)

/-! ### The swap trial (cute_number_crush.py, CandyLikeGame.try_swap) -/

/-- Manhattan distance between two coordinates (`abs(r1-r2)+abs(c1-c2)`). -/
def manhattan (a b : Nat × Nat) : Nat :=
  ((a.1 : Int) - b.1).natAbs + ((a.2 : Int) - b.2).natAbs

/-- The observable swap-trial state: the board, the `animating` flag, and the
pending swap animation (`swap_animation`), if any. -/
structure GameState where
  board : Grid
  animating : Bool
  pending : Option ((Nat × Nat) × (Nat × Nat))
  deriving DecidableEq, Repr

/-- `CandyLikeGame.try_swap`: reject when a trial is in progress, when the
coordinates are not Manhattan-adjacent, or when either tile is missing;
otherwise record the pending swap and set `animating` (the model swap itself
happens later, in `update_swap_anim`). -/
def try_swap (st : GameState) (a b : Nat × Nat) : GameState :=
  if st.animating then st
  else if manhattan a b ≠ 1 then st
  else if cellAt st.board a.1 a.2 = none ∨ cellAt st.board b.1 b.2 = none then st
  else ⟨st.board, true, some (a, b)⟩

/-! ### Connectivity matching (number_smash.py and number_stack.py)

Both games contain the identical breadth-first flood over 4-neighbours with a
`deque` queue and a visited matrix; it is modelled once as `bfsAux`.  Only the
guard in front of it differs between `flood_group` and `find_group`. -/

/-- The neighbour scan `for dr, dc in ((1,0),(-1,0),(0,1),(0,-1))` followed by
the `in_bounds(nr, nc)` check. -/
def neighborsOf (rows cols : Nat) (p : Nat × Nat) : List (Nat × Nat) :=
  [((1 : Int), (0 : Int)), (-1, 0), (0, 1), (0, -1)].filterMap
    (fun d =>
      let nr := (p.1 : Int) + d.1
      let nc := (p.2 : Int) + d.2
      if 0 ≤ nr ∧ nr < (rows : Int) ∧ 0 ≤ nc ∧ nc < (cols : Int) then
        some (nr.toNat, nc.toNat)
      else none)

/-- The BFS while loop: pop the queue head, and for each in-bounds neighbour
that is unvisited and carries the target value, mark it visited, enqueue it
and append it to the group.  The Python loop runs until the queue empties;
`rows*cols + 1` fuel is enough for that (each enqueue visits a new cell). -/
def bfsAux (g : Grid) (t : Option Nat) :
    Nat → List (Nat × Nat) → Finset (Nat × Nat) → List (Nat × Nat) →
      List (Nat × Nat)
  | 0, _, _, group => group
  | _ + 1, [], _, group => group
  | fuel + 1, p :: qrest, visited, group =>
    let st := (neighborsOf g.length (width g) p).foldl
      (fun acc n =>
        if n ∉ acc.2.1 ∧ cellAt g n.1 n.2 = t then
          (acc.1 ++ [n], insert n acc.2.1, acc.2.2 ++ [n])
        else acc)
      (qrest, visited, group)
    bfsAux g t fuel st.1 st.2.1 st.2.2

/-- Clearing a group: `grid[gr][gc].value = None` for each member. -/
def clearCells (g : Grid) (ps : List (Nat × Nat)) : Grid :=
  ps.foldl (fun acc p => setCell acc p.1 p.2 none) g

/-- One step from `p` to `q` of the flood: `q` is an in-bounds 4-neighbour of
`p` carrying the target value.  The 4-connected region of the seed is the
reflexive-transitive closure of this step. -/
def AdjStep (g : Grid) (t : Option Nat) (p q : Nat × Nat) : Prop :=
  q ∈ neighborsOf g.length (width g) p ∧ cellAt g q.1 q.2 = t

/-- `q` belongs to the 4-connected equal-valued region seeded at `p`. -/
def Reaches (g : Grid) (t : Option Nat) (p q : Nat × Nat) : Prop :=
  Relation.ReflTransGen (AdjStep g t) p q

namespace NumberSmash

/-- `random.randint(0, 9)` of number_smash.py. -/
def randint09 (s : Nat → Nat) (i : Nat) : Nat := s i % 10

/-- `NumberSmashGame.flood_group`: empty when the seed cell is empty,
otherwise the BFS group seeded at `(r, c)` (no smashable-value check here —
`smash_at` performs it before calling). -/
def flood_group (g : Grid) (r c : Nat) : List (Nat × Nat) :=
  match cellAt g r c with
  | none => []
  | some v =>
    bfsAux g (some v) (g.length * width g + 1) [(r, c)] {(r, c)} [(r, c)]

/-- One column of `NumberSmashGame.apply_gravity`: the non-`None` values fall
to the bottom preserving order, vacated top cells get `random.randint(0, 9)`
draws, the bottom-most vacated cell receiving the earliest draw. -/
def gravityColumn (s : Nat → Nat) (col : List (Option Nat)) (i : Nat) :
    List (Option Nat) × Nat :=
  let kept := col.filterMap id
  let m := col.length - kept.length
  (((List.range m).reverse.map (fun j => some (randint09 s (i + j)))) ++
      kept.map some,
    i + m)

/-- Gravity over a list of columns, threading the draw cursor. -/
def gravityCols (s : Nat → Nat) :
    List (List (Option Nat)) → Nat → List (List (Option Nat)) × Nat
  | [], i => ([], i)
  | c :: cs, i =>
    let r1 := gravityColumn s c i
    let rest := gravityCols s cs r1.2
    (r1.1 :: rest.1, rest.2)

/-- `NumberSmashGame.apply_gravity` over the whole grid. -/
def apply_gravity (s : Nat → Nat) (g : Grid) (i : Nat) : Grid × Nat :=
  let cc := gravityCols s ((List.range (width g)).map (column g)) i
  (fromCols cc.1 g.length, cc.2)

/-- Outcome of `NumberSmashGame.smash_at`: whether the smash was accepted,
the removed group, the resulting grid, the score gain, and the draw cursor. -/
structure SmashResult where
  ok : Bool
  removed : List (Nat × Nat)
  grid : Grid
  gain : Nat
  cursor : Nat
  deriving Repr

/-- `NumberSmashGame.smash_at`: reject unless the value is 0 or 1 and the
flood group has at least 2 members; otherwise clear the group, apply gravity,
and gain `group_size * (value + 1)` points. -/
def smash_at (s : Nat → Nat) (g : Grid) (r c : Nat) (i : Nat) : SmashResult :=
  match cellAt g r c with
  | some v =>
    if v = 0 ∨ v = 1 then
      let grp := flood_group g r c
      if grp.length < 2 then ⟨false, [], g, 0, i⟩
      else
        let g2 := clearCells g grp
        let g3 := apply_gravity s g2 i
        ⟨true, grp, g3.1, grp.length * (v + 1), g3.2⟩
    else ⟨false, [], g, 0, i⟩
  | none => ⟨false, [], g, 0, i⟩

end NumberSmash

namespace NumberStack

/-- `NumberStack.find_group`: empty when the seed value is not smashable
(not 0 or 1), otherwise the BFS group seeded at `(r, c)`. -/
def find_group (g : Grid) (r c : Nat) : List (Nat × Nat) :=
  if cellAt g r c = some 0 ∨ cellAt g r c = some 1 then
    bfsAux g (cellAt g r c) (g.length * width g + 1) [(r, c)] {(r, c)} [(r, c)]
  else []

/-- One column of `NumberStack.apply_gravity`: non-`None` values fall to the
bottom preserving order; vacated top cells stay `None` (no refill). -/
def gravityColumnStack (col : List (Option Nat)) : List (Option Nat) :=
  let kept := col.filterMap id
  List.replicate (col.length - kept.length) none ++ kept.map some

/-- `NumberStack.apply_gravity` over the whole grid. -/
def apply_gravity (g : Grid) : Grid :=
  fromCols ((List.range (width g)).map (fun c => gravityColumnStack (column g c)))
    g.length

/-- Outcome of `NumberStack.smash`: removed group, resulting grid, gain. -/
structure StackSmashResult where
  removed : List (Nat × Nat)
  grid : Grid
  gain : Nat
  deriving Repr

/-- `NumberStack.smash`: reject unless the value is 0 or 1 and the group has
at least 2 members; otherwise clear the group, gain `group_size * 10`, and
apply gravity. -/
def smash (g : Grid) (r c : Nat) : StackSmashResult :=
  if cellAt g r c = some 0 ∨ cellAt g r c = some 1 then
    let grp := find_group g r c
    if grp.length < 2 then ⟨[], g, 0⟩
    else
      let g2 := clearCells g grp
      ⟨grp, apply_gravity g2, grp.length * 10⟩
  else ⟨[], g, 0⟩

end NumberStack

/-! ### Concrete objects used by witnesses and counterexamples -/

/-- The all-zeros value stream (an adversarial random source). -/
def zs : Nat → Nat := fun _ => 0

/-- A 3×3 grid entirely of tile type 0. -/
def z33 : Grid :=
  [[some 0, some 0, some 0], [some 0, some 0, some 0], [some 0, some 0, some 0]]

/-- Every in-bounds cell of the grid holds a tile (no observable `None`). -/
def TotalGrid (g : Grid) : Prop :=
  ∀ r c, r < g.length → c < (g.getD r []).length → cellAt g r c ≠ none

/-! ## Lemmas and claim theorems -/

theorem runLen_le {α : Type} [DecidableEq α] (t : α) (l : List α) :
    runLen t l ≤ l.length := by
  induction l with
  | nil => simp [runLen]
  | cons x xs ih =>
    by_cases h : x = t
    · simp [runLen, h]; omega
    · simp [runLen, h]

theorem getElem?_of_lt_runLen {α : Type} [DecidableEq α] {t : α} {l : List α}
    {i : Nat} (h : i < runLen t l) : l[i]? = some t := by
  induction l generalizing i with
  | nil => simp [runLen] at h
  | cons x xs ih =>
    by_cases hx : x = t
    · subst hx
      cases i with
      | zero => simp
      | succ j =>
        simp only [runLen, eq_self_iff_true, if_true] at h
        simpa using ih (by omega)
    · simp [runLen, hx] at h

theorem getElem?_runLen_ne {α : Type} [DecidableEq α] {t : α} {l : List α}
    {a : α} (h : l[runLen t l]? = some a) : a ≠ t := by
  induction l with
  | nil => simp at h
  | cons x xs ih =>
    by_cases hx : x = t
    · subst hx
      simp only [runLen, eq_self_iff_true, if_true] at h
      exact ih (by simpa using h)
    · simp only [runLen, if_neg hx] at h
      simp only [List.getElem?_cons_zero, Option.some.injEq] at h
      subst h; exact hx

theorem IsMaxRun.end_unique {α : Type} {l : List α} {a b b' : Nat}
    (h : IsMaxRun l a b) (h' : IsMaxRun l a b') : b = b' := by
  obtain ⟨hab, hbl, t, hrun, _, hstop⟩ := h
  obtain ⟨hab', hbl', t', hrun', _, hstop'⟩ := h'
  have hsame : t = t' := by
    have h1 := hrun a le_rfl hab
    have h2 := hrun' a le_rfl hab'
    rw [h1] at h2; exact (Option.some.injEq _ _).mp h2
  subst hsame
  rcases Nat.lt_trichotomy b b' with hlt | heq | hgt
  · exfalso
    have hv : l[b]? = some t := hrun' b (by omega) hlt
    rcases hstop with hb | hb
    · rw [hb] at hv
      rw [List.getElem?_eq_none (le_refl l.length)] at hv
      exact Option.noConfusion hv
    · exact hb hv
  · exact heq
  · exfalso
    have hv : l[b']? = some t := hrun b' (by omega) hgt
    rcases hstop' with hb | hb
    · rw [hb] at hv
      rw [List.getElem?_eq_none (le_refl l.length)] at hv
      exact Option.noConfusion hv
    · exact hb hv

theorem IsMaxRun.not_start_inside {α : Type} {l : List α} {a b a' b' : Nat}
    (h : IsMaxRun l a b) (h' : IsMaxRun l a' b') (h1 : a < a') (h2 : a' < b) :
    False := by
  obtain ⟨hab, hbl, t, hrun, _, _⟩ := h
  obtain ⟨hab', hbl', t', hrun', hleft', _⟩ := h'
  have hv : l[a']? = some t := hrun a' (by omega) h2
  have hv' : l[a']? = some t' := hrun' a' le_rfl hab'
  have hsame : t = t' := by rw [hv] at hv'; exact (Option.some.injEq _ _).mp hv'
  subst hsame
  rcases hleft' with h0 | hne
  · omega
  · exact hne (hrun (a' - 1) (by omega) (by omega))

theorem scanRowAux_nil_case {α : Type} [DecidableEq α] (F : List α)
    (n off c : Nat) (hdrop : F.drop off = ([] : List α)) :
    (c ∈ scanRowAux n ([] : List α) off ↔
      ∃ a b, IsMaxRun F a b ∧ 3 ≤ b - a ∧ a ≤ c ∧ c < b ∧ off ≤ a) := by
  constructor
  · intro h
    cases n with
    | zero => simp [scanRowAux] at h
    | succ m => simp [scanRowAux] at h
  · rintro ⟨a, b, ⟨hab, hbl, _⟩, _, _, _, hoffa⟩
    exfalso
    have hlen : F.length - off = 0 := by
      have := congrArg List.length hdrop
      simpa [List.length_drop] using this
    omega

theorem scanRowAux_mem_aux {α : Type} [DecidableEq α] (F : List α) :
    ∀ n (l : List α) (off c : Nat), l.length ≤ n → F.drop off = l →
      LeftBoundary F off →
      (c ∈ scanRowAux n l off ↔
        ∃ a b, IsMaxRun F a b ∧ 3 ≤ b - a ∧ a ≤ c ∧ c < b ∧ off ≤ a) := by
  intro n
  induction n with
  | zero =>
    intro l off c hn hdrop hB
    have hl : l = [] := List.eq_nil_of_length_eq_zero (by omega)
    subst hl
    exact scanRowAux_nil_case F 0 off c hdrop
  | succ n ih =>
    intro l off c hn hdrop hB
    cases l with
    | nil => exact scanRowAux_nil_case F (n + 1) off c hdrop
    | cons t rest =>
      have hkle : runLen t rest ≤ rest.length := runLen_le t rest
      set k := runLen t rest with hkdef
      have hoffle : off < F.length := by
        by_contra hcon
        have hnil : F.drop off = [] := List.drop_eq_nil_of_le (by omega)
        rw [hdrop] at hnil
        exact List.noConfusion hnil
      have hlen : F.length = off + (rest.length + 1) := by
        have hh := congrArg List.length hdrop
        simp only [List.length_drop, List.length_cons] at hh
        omega
      have hget : ∀ j : Nat, F[off + j]? = (t :: rest)[j]? := by
        intro j; rw [← hdrop, List.getElem?_drop]
      have hrun : ∀ i : Nat, off ≤ i → i < off + (k + 1) → F[i]? = some t := by
        intro i h1 h2
        have hj : i = off + (i - off) := by omega
        rw [hj, hget]
        rcases Nat.eq_zero_or_pos (i - off) with h0 | hpos
        · rw [h0]; simp
        · have hlt : (i - off) - 1 < runLen t rest := by rw [← hkdef]; omega
          have hv := getElem?_of_lt_runLen hlt
          rw [show i - off = (i - off - 1) + 1 by omega]
          simpa using hv
      have hstop : off + (k + 1) = F.length ∨ F[off + (k + 1)]? ≠ some t := by
        have h1 : F[off + (k + 1)]? = rest[k]? := by
          rw [hget]; simp
        rcases Nat.lt_or_ge k rest.length with hlt | hge
        · right
          rw [h1, List.getElem?_eq_getElem hlt]
          intro hcontra
          have hat : rest[k] = t := (Option.some.injEq _ _).mp hcontra
          have ha : rest[runLen t rest]? = some (rest[k]) := by
            rw [← hkdef]; exact List.getElem?_eq_getElem hlt
          exact getElem?_runLen_ne ha hat
        · left; omega
      have hmax0 : IsMaxRun F off (off + (k + 1)) := by
        refine ⟨by omega, by omega, t, hrun, ?_, hstop⟩
        rcases hB with h0 | hB
        · exact Or.inl h0
        · exact Or.inr (hB t (hrun off le_rfl (by omega)))
      have hdrop2 : F.drop (off + (k + 1)) = rest.drop k := by
        rw [← List.drop_drop, hdrop]
        simp
      have hB2 : LeftBoundary F (off + (k + 1)) := by
        right
        intro t' ht' hcontra
        have hprev : F[off + k]? = some t := hrun (off + k) (by omega) (by omega)
        rw [show off + (k + 1) - 1 = off + k by omega] at hcontra
        rw [hprev] at hcontra
        have htt : t = t' := (Option.some.injEq _ _).mp hcontra
        subst htt
        rcases hstop with hb | hb
        · rw [hb, List.getElem?_eq_none (le_refl F.length)] at ht'
          exact Option.noConfusion ht'
        · exact hb ht'
      have hrec := ih (rest.drop k) (off + (k + 1)) c
        (by
          have hn2 := hn
          simp only [List.length_cons] at hn2
          simp only [List.length_drop]
          omega) hdrop2 hB2
      have hmem : c ∈ scanRowAux (n + 1) (t :: rest) off ↔
          (3 ≤ k + 1 ∧ off ≤ c ∧ c < off + (k + 1)) ∨
            c ∈ scanRowAux n (rest.drop k) (off + (k + 1)) := by
        rw [scanRowAux]
        rw [← hkdef]
        by_cases h3 : 3 ≤ k + 1
        · simp [h3, Finset.mem_union, Finset.mem_Ico, and_assoc]
        · simp [h3, Finset.mem_union]
      constructor
      · intro h
        rcases hmem.mp h with ⟨h3, hc1, hc2⟩ | h2
        · exact ⟨off, off + (k + 1), hmax0, by omega, hc1, hc2, le_rfl⟩
        · obtain ⟨a, b, hmr, h3ab, hac, hcb, hoffa⟩ := hrec.mp h2
          exact ⟨a, b, hmr, h3ab, hac, hcb, by omega⟩
      · rintro ⟨a, b, hmr, h3ab, hac, hcb, hoffa⟩
        apply hmem.mpr
        rcases Nat.lt_or_ge a (off + (k + 1)) with hlt | hge
        · rcases Nat.eq_or_lt_of_le hoffa with heq | hlt2
          · subst heq
            have hbe : off + (k + 1) = b := IsMaxRun.end_unique hmax0 hmr
            have hsub : b - off = k + 1 := by rw [← hbe, Nat.add_sub_cancel_left]
            refine Or.inl ⟨?_, hac, ?_⟩
            · rw [← hsub]; exact h3ab
            · rw [hbe]; exact hcb
          · exact (IsMaxRun.not_start_inside hmax0 hmr hlt2 hlt).elim
        · exact Or.inr (hrec.mpr ⟨a, b, hmr, h3ab, hac, hcb, hge⟩)

theorem scanRow_mem {α : Type} [DecidableEq α] (l : List α) (c : Nat) :
    c ∈ scanRow l ↔ InMaxRun3 l c := by
  rw [scanRow,
    scanRowAux_mem_aux l l.length l 0 c le_rfl (List.drop_zero l) (Or.inl rfl)]
  constructor
  · rintro ⟨a, b, h1, h2, h3, h4, _⟩; exact ⟨a, b, h1, h2, h3, h4⟩
  · rintro ⟨a, b, h1, h2, h3, h4⟩; exact ⟨a, b, h1, h2, h3, h4, Nat.zero_le a⟩

theorem mem_find_matches (g : Grid) (r c : Nat) :
    (r, c) ∈ find_matches g ↔
      (r < g.length ∧ c ∈ scanRow (g.getD r [])) ∨
        (c < width g ∧ r ∈ scanRow (column g c)) := by
  simp only [find_matches, Finset.mem_union, Finset.mem_biUnion,
    Finset.mem_range, Finset.mem_image]
  constructor
  · rintro (⟨a, ha, x, hx, hex⟩ | ⟨a, ha, x, hx, hex⟩)
    · injection hex with h1 h2; subst h1; subst h2; exact Or.inl ⟨ha, hx⟩
    · injection hex with h1 h2; subst h1; subst h2; exact Or.inr ⟨ha, hx⟩
  · rintro (⟨h1, h2⟩ | ⟨h1, h2⟩)
    · exact Or.inl ⟨r, h1, c, h2, rfl⟩
    · exact Or.inr ⟨c, h1, r, h2, rfl⟩

/-- Claim C1: `Board.find_matches` returns exactly the set of coordinates
lying inside a maximal horizontal run of length ≥ 3 of its row, or a maximal
vertical run of length ≥ 3 of its column, of equal-valued cells; the result
is a set, so a coordinate qualifying in both directions appears exactly
once. -/
theorem find_matches_iff_max_run (g : Grid) (r c : Nat) :
    (r, c) ∈ find_matches g ↔
      (r < g.length ∧ InMaxRun3 (g.getD r []) c) ∨
        (c < width g ∧ InMaxRun3 (column g c) r) := by
  rw [mem_find_matches, scanRow_mem, scanRow_mem]

/-! ### Removal, gravity and refill (cute_number_crush.py) -/

/-! ### Cascade loop lemmas (claims C3, C4, C7) -/

theorem remove_and_collapse_z33_step (i : Nat) :
    remove_and_collapse zs z33 (find_matches z33) i = (z33, 9, i + 9) := rfl

theorem resolve_z33_stuck :
    ∀ n i chain, (find_and_resolve_matches zs n z33 i chain).final = none := by
  intro n
  induction n with
  | zero => intro i chain; rfl
  | succ n ih =>
    intro i chain
    have hne : ¬ find_matches z33 = ∅ := by decide
    simp only [find_and_resolve_matches, if_neg hne]
    rw [remove_and_collapse_z33_step i]
    exact ih (i + 9) (chain + 1)

/-- Claim C3, counterexample: the cascade loop of
`CandyLikeGame.find_and_resolve_matches` has no iteration cap and does not
always terminate: started on the all-zero 3×3 grid with an all-zeros refill
stream, no amount of fuel makes the `while True` loop exit (each iteration
removes all nine tiles and the refill recreates the same grid), and no
internal-invariant violation is ever surfaced. -/
theorem resolve_no_cap_counterexample :
    ¬ ∃ n, (find_and_resolve_matches zs n z33 0 0).final.isSome = true := by
  rintro ⟨n, h⟩
  rw [resolve_z33_stuck n 0 0] at h
  simp at h

/-- Claim C3 (amended): the loop is uncapped, and termination is contingent
on the refill values; but whenever it does return a grid, that grid is
stabilized: re-running the full-grid matcher yields the empty set. -/
theorem resolve_stable_on_return (s : Nat → Nat) :
    ∀ (fuel : Nat) (g : Grid) (i chain : Nat) (g2 : Grid),
      (find_and_resolve_matches s fuel g i chain).final = some g2 →
      find_matches g2 = ∅ := by
  intro fuel
  induction fuel with
  | zero =>
    intro g i chain g2 h
    simp [find_and_resolve_matches] at h
  | succ n ih =>
    intro g i chain g2 h
    by_cases hm : find_matches g = ∅
    · simp only [find_and_resolve_matches, if_pos hm] at h
      obtain rfl : g = g2 := by simpa using h
      exact hm
    · simp only [find_and_resolve_matches, if_neg hm] at h
      exact ih _ _ _ _ h

theorem resolve_stable_on_return_witness :
    find_matches ([[some 0]] : Grid) = ∅ :=
  resolve_stable_on_return zs 1 [[some 0]] 0 0 [[some 0]] (by decide)

theorem resolve_initial_stable (s : Nat → Nat) :
    ∀ (fuel : Nat) (g : Grid) (i : Nat) (g2 : Grid) (i2 : Nat),
      resolve_all_matches_initial s fuel g i = (some g2, i2) →
      find_matches g2 = ∅ := by
  intro fuel
  induction fuel with
  | zero =>
    intro g i g2 i2 h
    simp [resolve_all_matches_initial] at h
  | succ n ih =>
    intro g i g2 i2 h
    by_cases hm : find_matches g = ∅
    · simp only [resolve_all_matches_initial, if_pos hm] at h
      have h1 : some g = some g2 := congrArg Prod.fst h
      obtain rfl : g = g2 := Option.some.inj h1
      exact hm
    · simp only [resolve_all_matches_initial, if_neg hm] at h
      exact ih _ _ _ _ h

/-- Claim C4: every grid produced by board construction (random fill, the
`_remove_initial_matches` re-roll pass, then the
`resolve_all_matches_initial` loop) has no run matches: the full-grid
matcher returns the empty set immediately after initialization. -/
theorem initBoard_no_matches (s : Nat → Nat) (rows cols fuelR fuelS : Nat)
    (g : Grid) (i : Nat)
    (h : initBoard s rows cols fuelR fuelS = some (g, i)) :
    find_matches g = ∅ := by
  unfold initBoard at h
  cases hri : remove_initial_matches s fuelR (cellsList rows cols)
      (initFill s rows cols 0).1 (initFill s rows cols 0).2 with
  | none => rw [hri] at h; simp at h
  | some gi =>
    rw [hri] at h
    dsimp only [] at h
    cases hres : resolve_all_matches_initial s fuelS gi.1 gi.2 with
    | mk og i2 =>
      rw [hres] at h
      cases og with
      | none => simp at h
      | some g2 =>
        simp only [] at h
        have h' : (g2, i2) = (g, i) := Option.some.inj h
        have hg : g2 = g := congrArg Prod.fst h'
        have hi2 : i2 = i := congrArg Prod.snd h'
        subst hg
        exact resolve_initial_stable s fuelS gi.1 gi.2 g2 i2 hres

theorem initBoard_no_matches_witness :
    find_matches ([[some 0, some 0], [some 0, some 0]] : Grid) = ∅ :=
  initBoard_no_matches zs 2 2 1 1 [[some 0, some 0], [some 0, some 0]] 4
    (by decide)

theorem resolve_score_general (s : Nat → Nat) :
    ∀ (fuel : Nat) (g : Grid) (i chain : Nat),
      (find_and_resolve_matches s fuel g i chain).scoreDelta =
        ∑ j in Finset.range
            (find_and_resolve_matches s fuel g i chain).removedPerStep.length,
          (find_and_resolve_matches s fuel g i chain).removedPerStep.getD j 0 *
            BASE_SCORE_PER_TILE * (chain + j + 1) := by
  intro fuel
  induction fuel with
  | zero => intro g i chain; simp [find_and_resolve_matches]
  | succ n ih =>
    intro g i chain
    by_cases hm : find_matches g = ∅
    · simp [find_and_resolve_matches, hm]
    · simp only [find_and_resolve_matches, if_neg hm, List.length_cons]
      rw [Finset.sum_range_succ']
      simp only [List.getD_cons_succ, List.getD_cons_zero]
      rw [ih]
      have hcong :
          (∑ j in Finset.range
              (find_and_resolve_matches s n
                (remove_and_collapse s g (find_matches g) i).1
                (remove_and_collapse s g (find_matches g) i).2.2
                (chain + 1)).removedPerStep.length,
            (find_and_resolve_matches s n
                (remove_and_collapse s g (find_matches g) i).1
                (remove_and_collapse s g (find_matches g) i).2.2
                (chain + 1)).removedPerStep.getD j 0 *
              BASE_SCORE_PER_TILE * (chain + 1 + j + 1)) =
          ∑ j in Finset.range
              (find_and_resolve_matches s n
                (remove_and_collapse s g (find_matches g) i).1
                (remove_and_collapse s g (find_matches g) i).2.2
                (chain + 1)).removedPerStep.length,
            (find_and_resolve_matches s n
                (remove_and_collapse s g (find_matches g) i).1
                (remove_and_collapse s g (find_matches g) i).2.2
                (chain + 1)).removedPerStep.getD j 0 *
              BASE_SCORE_PER_TILE * (chain + (j + 1) + 1) := by
        apply Finset.sum_congr rfl
        intro j _
        congr 1
        omega
      rw [hcong]
      ring

/-- Claim C7: in one resolution of the run-matching cascade, the k-th cascade
step that removes n tiles contributes exactly
`n * BASE_SCORE_PER_TILE * k` to the score (k starting at 1): the total score
delta is the sum over the per-step removal counts weighted by
`BASE_SCORE_PER_TILE` times the 1-based step index. -/
theorem resolve_score_formula (s : Nat → Nat) (fuel : Nat) (g : Grid)
    (i : Nat) :
    (find_and_resolve_matches s fuel g i 0).scoreDelta =
      ∑ j in Finset.range
          (find_and_resolve_matches s fuel g i 0).removedPerStep.length,
        (find_and_resolve_matches s fuel g i 0).removedPerStep.getD j 0 *
          BASE_SCORE_PER_TILE * (j + 1) := by
  have h := resolve_score_general s fuel g i 0
  simpa using h

/-! ### Column collapse lemmas (claims C2, C10) -/

theorem choice_mem_TILE_TYPES (s : Nat → Nat) (i : Nat) :
    choice s i ∈ TILE_TYPES := by
  have h6 : s i % 6 < 6 := Nat.mod_lt _ (by norm_num)
  have hv : TILE_TYPES.getD (s i % TILE_TYPES.length) 0 = s i % 6 := by
    simp [TILE_TYPES, List.getD_eq_getElem?_getD, List.getElem?_range, h6]
  rw [choice, hv]
  simp [TILE_TYPES, List.mem_range]
  exact h6

theorem filterMap_id_of_no_none (col : List (Option Nat))
    (h : ∀ x ∈ col, x ≠ none) : (col.filterMap id).map some = col := by
  induction col with
  | nil => rfl
  | cons x xs ih =>
    cases x with
    | none => exact absurd rfl (h none (by simp))
    | some v =>
      have hxs := ih (fun x hx => h x (by simp [hx]))
      simp only [List.filterMap_cons, id]
      simpa using hxs

theorem collapseColumn_parts (s : Nat → Nat) (col : List (Option Nat))
    (i : Nat) :
    ((collapseColumn s col i).1).length = col.length ∧
      ((collapseColumn s col i).1).drop
          (col.length - (col.filterMap id).length) =
        (col.filterMap id).map some ∧
      (∀ x ∈ (collapseColumn s col i).1, x ≠ none) ∧
      (collapseColumn s col i).2 =
        i + (col.length - (col.filterMap id).length) := by
  have hle := List.length_filterMap_le id col
  refine ⟨?_, ?_, ?_, rfl⟩
  · simp [collapseColumn]
    omega
  · have hlen : ((List.range (col.length - (col.filterMap id).length)).reverse.map
        (fun j => some (choice s (i + j)))).length =
        col.length - (col.filterMap id).length := by simp
    show (((List.range (col.length - (col.filterMap id).length)).reverse.map
        (fun j => some (choice s (i + j)))) ++
        (col.filterMap id).map some).drop
          (col.length - (col.filterMap id).length) =
      (col.filterMap id).map some
    exact List.drop_left' hlen
  · intro x hx
    simp only [collapseColumn] at hx
    rcases List.mem_append.mp hx with h1 | h2
    · obtain ⟨j, _, rfl⟩ := List.mem_map.mp h1; simp
    · obtain ⟨v, _, rfl⟩ := List.mem_map.mp h2; simp

theorem collapseColumn_fresh (s : Nat → Nat) (col : List (Option Nat))
    (i : Nat) :
    ∀ x ∈ ((collapseColumn s col i).1).take
        (col.length - (col.filterMap id).length),
      ∃ v ∈ TILE_TYPES, x = some v := by
  intro x hx
  have hlen : ((List.range (col.length - (col.filterMap id).length)).reverse.map
      (fun j => some (choice s (i + j)))).length =
      col.length - (col.filterMap id).length := by simp
  have htake : ((collapseColumn s col i).1).take
      (col.length - (col.filterMap id).length) =
      (List.range (col.length - (col.filterMap id).length)).reverse.map
        (fun j => some (choice s (i + j))) := by
    show (((List.range (col.length - (col.filterMap id).length)).reverse.map
        (fun j => some (choice s (i + j)))) ++
        (col.filterMap id).map some).take
          (col.length - (col.filterMap id).length) =
      (List.range (col.length - (col.filterMap id).length)).reverse.map
        (fun j => some (choice s (i + j)))
    exact List.take_left' hlen
  rw [htake] at hx
  obtain ⟨j, _, rfl⟩ := List.mem_map.mp hx
  exact ⟨choice s (i + j), choice_mem_TILE_TYPES s (i + j), rfl⟩

theorem collapseColumn_noop (s : Nat → Nat) (col : List (Option Nat))
    (i : Nat) (h : ∀ x ∈ col, x ≠ none) :
    collapseColumn s col i = (col, i) := by
  have hk : (col.filterMap id).map some = col := filterMap_id_of_no_none col h
  have hlen : (col.filterMap id).length = col.length := by
    have := congrArg List.length hk; simpa using this
  rw [collapseColumn]
  simp [hlen, Nat.sub_self, hk]

theorem gravityColumn_parts (s : Nat → Nat) (col : List (Option Nat))
    (i : Nat) :
    ((NumberSmash.gravityColumn s col i).1).length = col.length ∧
      ((NumberSmash.gravityColumn s col i).1).drop
          (col.length - (col.filterMap id).length) =
        (col.filterMap id).map some ∧
      (∀ x ∈ (NumberSmash.gravityColumn s col i).1, x ≠ none) ∧
      (NumberSmash.gravityColumn s col i).2 =
        i + (col.length - (col.filterMap id).length) := by
  have hle := List.length_filterMap_le id col
  refine ⟨?_, ?_, ?_, rfl⟩
  · simp [NumberSmash.gravityColumn]
    omega
  · have hlen : ((List.range (col.length - (col.filterMap id).length)).reverse.map
        (fun j => some (NumberSmash.randint09 s (i + j)))).length =
        col.length - (col.filterMap id).length := by simp
    show (((List.range (col.length - (col.filterMap id).length)).reverse.map
        (fun j => some (NumberSmash.randint09 s (i + j)))) ++
        (col.filterMap id).map some).drop
          (col.length - (col.filterMap id).length) =
      (col.filterMap id).map some
    exact List.drop_left' hlen
  · intro x hx
    simp only [NumberSmash.gravityColumn] at hx
    rcases List.mem_append.mp hx with h1 | h2
    · obtain ⟨j, _, rfl⟩ := List.mem_map.mp h1; simp
    · obtain ⟨v, _, rfl⟩ := List.mem_map.mp h2; simp

theorem gravityColumn_fresh (s : Nat → Nat) (col : List (Option Nat))
    (i : Nat) :
    ∀ x ∈ ((NumberSmash.gravityColumn s col i).1).take
        (col.length - (col.filterMap id).length),
      ∃ v, v < 10 ∧ x = some v := by
  intro x hx
  have hlen : ((List.range (col.length - (col.filterMap id).length)).reverse.map
      (fun j => some (NumberSmash.randint09 s (i + j)))).length =
      col.length - (col.filterMap id).length := by simp
  have htake : ((NumberSmash.gravityColumn s col i).1).take
      (col.length - (col.filterMap id).length) =
      (List.range (col.length - (col.filterMap id).length)).reverse.map
        (fun j => some (NumberSmash.randint09 s (i + j))) := by
    show (((List.range (col.length - (col.filterMap id).length)).reverse.map
        (fun j => some (NumberSmash.randint09 s (i + j)))) ++
        (col.filterMap id).map some).take
          (col.length - (col.filterMap id).length) =
      (List.range (col.length - (col.filterMap id).length)).reverse.map
        (fun j => some (NumberSmash.randint09 s (i + j)))
    exact List.take_left' hlen
  rw [htake] at hx
  obtain ⟨j, _, rfl⟩ := List.mem_map.mp hx
  exact ⟨NumberSmash.randint09 s (i + j),
    Nat.mod_lt _ (by norm_num), rfl⟩

theorem gravityColumn_noop (s : Nat → Nat) (col : List (Option Nat)) (i : Nat)
    (h : ∀ x ∈ col, x ≠ none) :
    NumberSmash.gravityColumn s col i = (col, i) := by
  have hk : (col.filterMap id).map some = col := filterMap_id_of_no_none col h
  have hlen : (col.filterMap id).length = col.length := by
    have := congrArg List.length hk; simpa using this
  rw [NumberSmash.gravityColumn]
  simp [hlen, Nat.sub_self, hk]

theorem gravityColumnStack_parts (col : List (Option Nat)) :
    (NumberStack.gravityColumnStack col).length = col.length ∧
      (NumberStack.gravityColumnStack col).drop
          (col.length - (col.filterMap id).length) =
        (col.filterMap id).map some ∧
      (NumberStack.gravityColumnStack col).take
          (col.length - (col.filterMap id).length) =
        List.replicate (col.length - (col.filterMap id).length) none ∧
      ((∀ x ∈ col, x ≠ none) → NumberStack.gravityColumnStack col = col) := by
  have hle := List.length_filterMap_le id col
  have hlen : (List.replicate (col.length - (col.filterMap id).length)
      (none : Option Nat)).length =
      col.length - (col.filterMap id).length := by simp
  refine ⟨?_, ?_, ?_, ?_⟩
  · simp [NumberStack.gravityColumnStack]
    omega
  · show ((List.replicate (col.length - (col.filterMap id).length) none) ++
        (col.filterMap id).map some).drop
          (col.length - (col.filterMap id).length) =
      (col.filterMap id).map some
    exact List.drop_left' hlen
  · show ((List.replicate (col.length - (col.filterMap id).length) none) ++
        (col.filterMap id).map some).take
          (col.length - (col.filterMap id).length) =
      List.replicate (col.length - (col.filterMap id).length) none
    exact List.take_left' hlen
  · intro h
    have hk : (col.filterMap id).map some = col := filterMap_id_of_no_none col h
    have hl2 : (col.filterMap id).length = col.length := by
      have := congrArg List.length hk; simpa using this
    rw [NumberStack.gravityColumnStack]
    simp [hl2, Nat.sub_self, hk]

/-- Claim C2, counterexample: in number_stack.py, `apply_gravity` does not
refill vacated cells.  On the 2×1 grid `[[0], [empty]]` it compacts the 0 to
the bottom but leaves the vacated top cell empty, contradicting the claim
that afterwards no cell is empty. -/
theorem stack_gravity_counterexample :
    NumberStack.apply_gravity [[some 0], [none]] = [[none], [some 0]] ∧
      cellAt (NumberStack.apply_gravity [[some 0], [none]]) 0 0 = none :=
  ⟨by decide, by decide⟩

/-- Claim C2 (amended): in all three variants, the per-column gravity
operation compacts the non-empty cells downward preserving their relative
order (they occupy the bottom of the column, in order), and is a no-op on a
column with no empty cells.  In cute_number_crush (`remove_and_collapse`)
and number_smash (`apply_gravity`) every vacated upper cell is filled with a
freshly generated value from the respective alphabet, so no cell is left
empty; in number_stack (`apply_gravity`) the vacated upper cells remain
empty (no refill). -/
theorem collapse_gravity_amended (s : Nat → Nat) (col : List (Option Nat))
    (i : Nat) :
    (((collapseColumn s col i).1).length = col.length ∧
      ((collapseColumn s col i).1).drop
          (col.length - (col.filterMap id).length) =
        (col.filterMap id).map some ∧
      (∀ x ∈ (collapseColumn s col i).1, x ≠ none) ∧
      (∀ x ∈ ((collapseColumn s col i).1).take
          (col.length - (col.filterMap id).length),
        ∃ v ∈ TILE_TYPES, x = some v) ∧
      ((∀ x ∈ col, x ≠ none) → collapseColumn s col i = (col, i))) ∧
    (((NumberSmash.gravityColumn s col i).1).length = col.length ∧
      ((NumberSmash.gravityColumn s col i).1).drop
          (col.length - (col.filterMap id).length) =
        (col.filterMap id).map some ∧
      (∀ x ∈ (NumberSmash.gravityColumn s col i).1, x ≠ none) ∧
      (∀ x ∈ ((NumberSmash.gravityColumn s col i).1).take
          (col.length - (col.filterMap id).length),
        ∃ v, v < 10 ∧ x = some v) ∧
      ((∀ x ∈ col, x ≠ none) → NumberSmash.gravityColumn s col i = (col, i))) ∧
    ((NumberStack.gravityColumnStack col).length = col.length ∧
      (NumberStack.gravityColumnStack col).drop
          (col.length - (col.filterMap id).length) =
        (col.filterMap id).map some ∧
      (NumberStack.gravityColumnStack col).take
          (col.length - (col.filterMap id).length) =
        List.replicate (col.length - (col.filterMap id).length) none ∧
      ((∀ x ∈ col, x ≠ none) → NumberStack.gravityColumnStack col = col)) := by
  obtain ⟨h1, h2, h3, _⟩ := collapseColumn_parts s col i
  obtain ⟨h4, h5, h6, _⟩ := gravityColumn_parts s col i
  obtain ⟨h7, h8, h9, h10⟩ := gravityColumnStack_parts col
  exact ⟨⟨h1, h2, h3, collapseColumn_fresh s col i, collapseColumn_noop s col i⟩,
    ⟨h4, h5, h6, gravityColumn_fresh s col i, gravityColumn_noop s col i⟩,
    ⟨h7, h8, h9, h10⟩⟩

theorem collapse_gravity_amended_witness :
    (((collapseColumn zs [some 1, none] 0).1).length =
        ([some 1, none] : List (Option Nat)).length ∧
      ((collapseColumn zs [some 1, none] 0).1).drop
          (([some 1, none] : List (Option Nat)).length -
            (([some 1, none] : List (Option Nat)).filterMap id).length) =
        (([some 1, none] : List (Option Nat)).filterMap id).map some ∧
      (∀ x ∈ (collapseColumn zs [some 1, none] 0).1, x ≠ none) ∧
      (∀ x ∈ ((collapseColumn zs [some 1, none] 0).1).take
          (([some 1, none] : List (Option Nat)).length -
            (([some 1, none] : List (Option Nat)).filterMap id).length),
        ∃ v ∈ TILE_TYPES, x = some v) ∧
      ((∀ x ∈ ([some 1, none] : List (Option Nat)), x ≠ none) →
        collapseColumn zs [some 1, none] 0 = ([some 1, none], 0))) ∧
    (((NumberSmash.gravityColumn zs [some 1, none] 0).1).length =
        ([some 1, none] : List (Option Nat)).length ∧
      ((NumberSmash.gravityColumn zs [some 1, none] 0).1).drop
          (([some 1, none] : List (Option Nat)).length -
            (([some 1, none] : List (Option Nat)).filterMap id).length) =
        (([some 1, none] : List (Option Nat)).filterMap id).map some ∧
      (∀ x ∈ (NumberSmash.gravityColumn zs [some 1, none] 0).1, x ≠ none) ∧
      (∀ x ∈ ((NumberSmash.gravityColumn zs [some 1, none] 0).1).take
          (([some 1, none] : List (Option Nat)).length -
            (([some 1, none] : List (Option Nat)).filterMap id).length),
        ∃ v, v < 10 ∧ x = some v) ∧
      ((∀ x ∈ ([some 1, none] : List (Option Nat)), x ≠ none) →
        NumberSmash.gravityColumn zs [some 1, none] 0 = ([some 1, none], 0))) ∧
    ((NumberStack.gravityColumnStack [some 1, none]).length =
        ([some 1, none] : List (Option Nat)).length ∧
      (NumberStack.gravityColumnStack [some 1, none]).drop
          (([some 1, none] : List (Option Nat)).length -
            (([some 1, none] : List (Option Nat)).filterMap id).length) =
        (([some 1, none] : List (Option Nat)).filterMap id).map some ∧
      (NumberStack.gravityColumnStack [some 1, none]).take
          (([some 1, none] : List (Option Nat)).length -
            (([some 1, none] : List (Option Nat)).filterMap id).length) =
        List.replicate
          (([some 1, none] : List (Option Nat)).length -
            (([some 1, none] : List (Option Nat)).filterMap id).length) none ∧
      ((∀ x ∈ ([some 1, none] : List (Option Nat)), x ≠ none) →
        NumberStack.gravityColumnStack [some 1, none] = [some 1, none])) :=
  collapse_gravity_amended zs [some 1, none] 0

/-! ### Cell update lemmas (claims C8, C9, C10) -/

theorem length_setCell (g : Grid) (r c : Nat) (v : Option Nat) :
    (setCell g r c v).length = g.length := by
  simp [setCell]

theorem getD_setCell_row (g : Grid) (r c : Nat) (v : Option Nat) (r' : Nat) :
    (setCell g r c v).getD r' [] =
      if r = r' ∧ r < g.length then (g.getD r []).set c v
      else g.getD r' [] := by
  unfold setCell
  rw [List.getD_eq_getElem?_getD, List.getElem?_set]
  by_cases hr : r = r'
  · subst hr
    by_cases hl : r < g.length
    · rw [if_pos rfl, if_pos hl, if_pos ⟨rfl, hl⟩]
      rfl
    · rw [if_pos rfl, if_neg hl, if_neg (fun h => hl h.2)]
      rw [List.getD_eq_getElem?_getD, List.getElem?_eq_none (by omega)]
  · rw [if_neg hr, if_neg (fun h => hr h.1)]
    rw [List.getD_eq_getElem?_getD]

theorem rowlength_setCell (g : Grid) (r c : Nat) (v : Option Nat) (r' : Nat) :
    ((setCell g r c v).getD r' []).length = (g.getD r' []).length := by
  rw [getD_setCell_row]
  split
  · rename_i h
    rw [List.length_set, h.1]
  · rfl

theorem width_setCell (g : Grid) (r c : Nat) (v : Option Nat) :
    width (setCell g r c v) = width g := by
  cases g with
  | nil => rfl
  | cons hd tl =>
    cases r with
    | zero => simp [setCell, width, List.getD_cons_zero]
    | succ n => simp [setCell, width]

theorem cellAt_setCell_self (g : Grid) (r c : Nat) (v : Option Nat)
    (hr : r < g.length) (hc : c < (g.getD r []).length) :
    cellAt (setCell g r c v) r c = v := by
  unfold cellAt
  rw [getD_setCell_row, if_pos ⟨rfl, hr⟩]
  rw [List.getD_eq_getElem?_getD, List.getElem?_set]
  rw [List.getD_eq_getElem?_getD] at hc
  simp [hc]

theorem cellAt_setCell_ne (g : Grid) (r c : Nat) (v : Option Nat)
    (r' c' : Nat) (h : r ≠ r' ∨ c ≠ c') :
    cellAt (setCell g r c v) r' c' = cellAt g r' c' := by
  unfold cellAt
  rw [getD_setCell_row]
  rcases h with h | h
  · rw [if_neg (by exact fun hh => h hh.1)]
  · by_cases hr : r = r' ∧ r < g.length
    · obtain ⟨hr1, hr2⟩ := hr
      subst hr1
      rw [if_pos ⟨rfl, hr2⟩]
      rw [List.getD_eq_getElem?_getD, List.getElem?_set, if_neg h,
        ← List.getD_eq_getElem?_getD]
    · rw [if_neg hr]

theorem grid_ext {g g' : Grid} (hlen : g.length = g'.length)
    (hrow : ∀ r, (g.getD r []).length = (g'.getD r []).length)
    (hcell : ∀ r c, cellAt g r c = cellAt g' r c) : g = g' := by
  apply List.ext_getElem?
  intro r
  rcases Nat.lt_or_ge r g.length with hr | hr
  · have hr' : r < g'.length := by omega
    have e1 : g.getD r [] = g[r] := by
      rw [List.getD_eq_getElem?_getD, List.getElem?_eq_getElem hr]; rfl
    have e2 : g'.getD r [] = g'[r] := by
      rw [List.getD_eq_getElem?_getD, List.getElem?_eq_getElem hr']; rfl
    rw [List.getElem?_eq_getElem hr, List.getElem?_eq_getElem hr']
    congr 1
    apply List.ext_getElem?
    intro c
    have hrl := hrow r
    rw [e1, e2] at hrl
    have hcc := hcell r c
    unfold cellAt at hcc
    rw [e1, e2] at hcc
    rcases Nat.lt_or_ge c (g[r]).length with hc | hc
    · have hc' : c < (g'[r]).length := by omega
      rw [List.getElem?_eq_getElem hc, List.getElem?_eq_getElem hc']
      rw [List.getD_eq_getElem?_getD, List.getElem?_eq_getElem hc] at hcc
      rw [List.getD_eq_getElem?_getD, List.getElem?_eq_getElem hc'] at hcc
      simpa using hcc
    · rw [List.getElem?_eq_none hc, List.getElem?_eq_none (by omega)]
  · rw [List.getElem?_eq_none hr, List.getElem?_eq_none (by omega)]

theorem rect_row_length {g : Grid} (hrect : Rect g) {r : Nat}
    (hr : r < g.length) : (g.getD r []).length = width g := by
  have e1 : g.getD r [] = g[r] := by
    rw [List.getD_eq_getElem?_getD, List.getElem?_eq_getElem hr]; rfl
  rw [e1]
  exact hrect _ (List.getElem_mem hr)

/-- Claim C8: for adjacent in-bounds coordinates, tentatively applying
`Board.swap` and — when the run matcher reports no match — applying the same
swap again (as `update_swap_anim` does to revert) leaves the grid
value-for-value identical to its pre-swap state. -/
theorem swap_revert_restores (g : Grid) (r1 c1 r2 c2 : Nat) (hrect : Rect g)
    (h1 : r1 < g.length) (h2 : c1 < width g) (h3 : r2 < g.length)
    (h4 : c2 < width g) (hadj : manhattan (r1, c1) (r2, c2) = 1)
    (hnm : find_matches (swap g r1 c1 r2 c2) = ∅) :
    swap (swap g r1 c1 r2 c2) r1 c1 r2 c2 = g := by
  have hne : ¬(r1 = r2 ∧ c1 = c2) := by
    rintro ⟨rfl, rfl⟩
    simp [manhattan] at hadj
  have hb1 : c1 < (g.getD r1 []).length := by
    rw [rect_row_length hrect h1]; exact h2
  have hb2 : c2 < (g.getD r2 []).length := by
    rw [rect_row_length hrect h3]; exact h4
  have hSdef : swap g r1 c1 r2 c2 =
      setCell (setCell g r1 c1 (cellAt g r2 c2)) r2 c2 (cellAt g r1 c1) := rfl
  have hL1 : (setCell g r1 c1 (cellAt g r2 c2)).length = g.length :=
    length_setCell ..
  have hW1 : ∀ r', ((setCell g r1 c1 (cellAt g r2 c2)).getD r' []).length =
      (g.getD r' []).length := fun r' => rowlength_setCell ..
  have hu2 : cellAt (swap g r1 c1 r2 c2) r2 c2 = cellAt g r1 c1 := by
    rw [hSdef]
    exact cellAt_setCell_self _ _ _ _ (by omega) (by rw [hW1]; exact hb2)
  have hu1 : cellAt (swap g r1 c1 r2 c2) r1 c1 = cellAt g r2 c2 := by
    rw [hSdef]
    rw [cellAt_setCell_ne _ _ _ _ _ _ (by omega)]
    exact cellAt_setCell_self _ _ _ _ h1 hb1
  have houter : swap (swap g r1 c1 r2 c2) r1 c1 r2 c2 =
      setCell (setCell (swap g r1 c1 r2 c2) r1 c1
        (cellAt (swap g r1 c1 r2 c2) r2 c2)) r2 c2
        (cellAt (swap g r1 c1 r2 c2) r1 c1) := rfl
  rw [houter, hu1, hu2, hSdef]
  have hLS : ∀ (gg : Grid) (a b : Nat) (v : Option Nat),
      (setCell gg a b v).length = gg.length := fun gg a b v => length_setCell ..
  have hWS : ∀ (gg : Grid) (a b : Nat) (v : Option Nat) r',
      ((setCell gg a b v).getD r' []).length = (gg.getD r' []).length :=
    fun gg a b v r' => rowlength_setCell ..
  apply grid_ext
  · rw [hLS, hLS, hLS, hLS]
  · intro r'
    rw [hWS, hWS, hWS, hWS]
  · intro x y
    by_cases hB : x = r2 ∧ y = c2
    · obtain ⟨rfl, rfl⟩ := hB
      rw [cellAt_setCell_self _ _ _ _ (by rw [hLS, hLS, hLS]; exact h3)
        (by rw [hWS, hWS, hWS]; exact hb2)]
    · have hBne : r2 ≠ x ∨ c2 ≠ y := by omega
      rw [cellAt_setCell_ne _ _ _ _ _ _ hBne]
      by_cases hA : x = r1 ∧ y = c1
      · obtain ⟨rfl, rfl⟩ := hA
        rw [cellAt_setCell_self _ _ _ _ (by rw [hLS, hLS]; exact h1)
          (by rw [hWS, hWS]; exact hb1)]
      · have hAne : r1 ≠ x ∨ c1 ≠ y := by omega
        rw [cellAt_setCell_ne _ _ _ _ _ _ hAne,
          cellAt_setCell_ne _ _ _ _ _ _ hBne,
          cellAt_setCell_ne _ _ _ _ _ _ hAne]

theorem swap_revert_restores_witness :
    swap (swap [[some 0, some 1]] 0 0 0 1) 0 0 0 1 = [[some 0, some 1]] :=
  swap_revert_restores [[some 0, some 1]] 0 0 0 1 (by decide) (by decide)
    (by decide) (by decide) (by decide) (by decide) (by decide)

/-- Claim C9: `try_swap` on two coordinates at Manhattan distance different
from 1 is rejected outright: the state (board, `animating` flag and pending
animation) is returned unchanged, so no grid cell is mutated and no
state-machine transition happens. -/
theorem try_swap_rejects_nonadjacent (st : GameState) (a b : Nat × Nat)
    (h : manhattan a b ≠ 1) : try_swap st a b = st := by
  unfold try_swap
  by_cases hA : st.animating
  · rw [if_pos hA]
  · rw [if_neg hA, if_pos h]

theorem try_swap_rejects_nonadjacent_witness :
    try_swap ⟨[[some 0, some 1]], false, none⟩ (0, 0) (0, 5) =
      ⟨[[some 0, some 1]], false, none⟩ :=
  try_swap_rejects_nonadjacent ⟨[[some 0, some 1]], false, none⟩ (0, 0) (0, 5)
    (by decide)

/-! ### Totality of the public grid (claim C10) -/

theorem markedColumn_length (g : Grid) (coords : Finset (Nat × Nat))
    (c : Nat) : (markedColumn g coords c).length = g.length := by
  simp [markedColumn]

theorem collapseCols_length (s : Nat → Nat) (g : Grid)
    (coords : Finset (Nat × Nat)) :
    ∀ (cs : List Nat) (i : Nat),
      ((collapseCols s g coords cs i).1).length = cs.length := by
  intro cs
  induction cs with
  | nil => intro i; rfl
  | cons c cs ih =>
    intro i
    simp only [collapseCols, List.length_cons]
    rw [ih]

theorem collapseCols_getD (s : Nat → Nat) (g : Grid)
    (coords : Finset (Nat × Nat)) :
    ∀ (cs : List Nat) (i idx : Nat), idx < cs.length →
      ∃ j, ((collapseCols s g coords cs i).1).getD idx [] =
        (collapseColumn s (markedColumn g coords (cs.getD idx 0)) j).1 := by
  intro cs
  induction cs with
  | nil => intro i idx h; simp at h
  | cons c cs ih =>
    intro i idx h
    cases idx with
    | zero =>
      exact ⟨i, by simp [collapseCols, List.getD_cons_zero]⟩
    | succ n =>
      obtain ⟨j, hj⟩ := ih (collapseColumn s (markedColumn g coords c) i).2 n
        (by simpa using h)
      exact ⟨j, by simpa [collapseCols, List.getD_cons_succ] using hj⟩

theorem length_fromCols (cols : List (List (Option Nat))) (rows : Nat) :
    (fromCols cols rows).length = rows := by
  simp [fromCols]

theorem width_fromCols (cols : List (List (Option Nat))) (n : Nat) :
    width (fromCols cols (n + 1)) = cols.length := by
  rw [fromCols, List.range_succ_eq_map]
  simp [width]

theorem cellAt_fromCols (cols : List (List (Option Nat))) (rows r c : Nat)
    (hr : r < rows) (hc : c < cols.length) :
    cellAt (fromCols cols rows) r c = (cols.getD c []).getD r none := by
  have h1 : (fromCols cols rows).getD r [] =
      cols.map (fun col => col.getD r none) := by
    unfold fromCols
    rw [List.getD_eq_getElem?_getD, List.getElem?_map, List.getElem?_range hr]
    rfl
  have h2 : cols.getD c [] = cols[c] := by
    rw [List.getD_eq_getElem?_getD, List.getElem?_eq_getElem hc]
    rfl
  unfold cellAt
  rw [h1, h2]
  conv_lhs => rw [List.getD_eq_getElem?_getD, List.getElem?_map,
    List.getElem?_eq_getElem hc]
  rfl

theorem remove_and_collapse_dims (s : Nat → Nat) (g : Grid)
    (coords : Finset (Nat × Nat)) (i : Nat) :
    ((remove_and_collapse s g coords i).1).length = g.length ∧
      width (remove_and_collapse s g coords i).1 = width g := by
  constructor
  · exact length_fromCols ..
  · show width (fromCols (collapseCols s g coords (List.range (width g)) i).1
      g.length) = width g
    cases hg : g.length with
    | zero =>
      have : g = [] := List.length_eq_zero.mp hg
      subst this
      rfl
    | succ n =>
      rw [width_fromCols, collapseCols_length]
      simp

theorem getD_fromCols (cols : List (List (Option Nat))) (rows r : Nat)
    (hr : r < rows) :
    (fromCols cols rows).getD r [] =
      cols.map (fun col => col.getD r none) := by
  unfold fromCols
  rw [List.getD_eq_getElem?_getD, List.getElem?_map, List.getElem?_range hr]
  rfl

theorem total_remove_and_collapse (s : Nat → Nat) (g : Grid)
    (coords : Finset (Nat × Nat)) (i : Nat) :
    TotalGrid (remove_and_collapse s g coords i).1 := by
  intro r c hr hc
  obtain ⟨hlen, hwid⟩ := remove_and_collapse_dims s g coords i
  rw [hlen] at hr
  have hrowlen : ((remove_and_collapse s g coords i).1.getD r []).length =
      (List.range (width g)).length := by
    show ((fromCols (collapseCols s g coords (List.range (width g)) i).1
      g.length).getD r []).length = _
    rw [getD_fromCols _ _ _ hr, List.length_map, collapseCols_length]
  rw [hrowlen] at hc
  have hccs : c < (List.range (width g)).length := hc
  show cellAt (fromCols (collapseCols s g coords (List.range (width g)) i).1
    g.length) r c ≠ none
  rw [cellAt_fromCols _ _ _ _ hr (by rw [collapseCols_length]; exact hccs)]
  obtain ⟨j, hj⟩ := collapseCols_getD s g coords (List.range (width g)) i c hccs
  set mc := markedColumn g coords ((List.range (width g)).getD c 0) with hmc
  obtain ⟨hclen, _, hnone, _⟩ := collapseColumn_parts s mc j
  rw [hj]
  intro hcontra
  have hrL : r < ((collapseColumn s mc j).1).length := by
    rw [hclen, hmc, markedColumn_length]
    exact hr
  have e : ((collapseColumn s mc j).1).getD r none =
      ((collapseColumn s mc j).1)[r] := by
    rw [List.getD_eq_getElem?_getD, List.getElem?_eq_getElem hrL]
    rfl
  have hmem := List.getElem_mem hrL
  rw [← e] at hmem
  exact hnone _ hmem hcontra

theorem total_setCell (g : Grid) (r c v : Nat) (h : TotalGrid g) :
    TotalGrid (setCell g r c (some v)) := by
  intro x y hx hy
  rw [length_setCell] at hx
  rw [rowlength_setCell] at hy
  by_cases hxy : r = x ∧ c = y
  · obtain ⟨rfl, rfl⟩ := hxy
    rw [cellAt_setCell_self _ _ _ _ hx hy]
    simp
  · have hne : r ≠ x ∨ c ≠ y := by omega
    rw [cellAt_setCell_ne _ _ _ _ _ _ hne]
    exact h x y hx hy

theorem initFill_total (s : Nat → Nat) (rows cols i : Nat) :
    TotalGrid (initFill s rows cols i).1 := by
  intro r c hr hc
  have hrows : (initFill s rows cols i).1.length = rows := by simp [initFill]
  rw [hrows] at hr
  have hrow : (initFill s rows cols i).1.getD r [] =
      (List.range cols).map (fun c2 => some (choice s (i + r * cols + c2))) := by
    show ((List.range rows).map _).getD r [] = _
    rw [List.getD_eq_getElem?_getD, List.getElem?_map, List.getElem?_range hr]
    rfl
  rw [hrow] at hc
  have hc2 : c < cols := by simpa using hc
  unfold cellAt
  rw [hrow]
  rw [List.getD_eq_getElem?_getD, List.getElem?_map, List.getElem?_range hc2]
  simp

theorem rerollCell_total (s : Nat → Nat) :
    ∀ (fuel : Nat) (g : Grid) (r c i : Nat) (g2 : Grid) (i2 : Nat),
      rerollCell s fuel g r c i = some (g2, i2) → TotalGrid g →
      TotalGrid g2 := by
  intro fuel
  induction fuel with
  | zero => intro g r c i g2 i2 h; simp [rerollCell] at h
  | succ n ih =>
    intro g r c i g2 i2 h htot
    by_cases hm : is_match_at g r c
    · simp only [rerollCell, if_pos hm] at h
      exact ih _ _ _ _ _ _ h (total_setCell g r c (choice s i) htot)
    · simp only [rerollCell, if_neg hm] at h
      have h' : (g, i) = (g2, i2) := Option.some.inj h
      obtain rfl : g = g2 := congrArg Prod.fst h'
      exact htot

theorem remove_initial_total (s : Nat → Nat) (fuel : Nat) :
    ∀ (ps : List (Nat × Nat)) (g : Grid) (i : Nat) (gi : Grid × Nat),
      remove_initial_matches s fuel ps g i = some gi → TotalGrid g →
      TotalGrid gi.1 := by
  intro ps
  induction ps with
  | nil =>
    intro g i gi h htot
    have h' : (g, i) = gi := Option.some.inj h
    rw [← h']
    exact htot
  | cons p ps ih =>
    intro g i gi h htot
    unfold remove_initial_matches at h
    cases hrr : rerollCell s fuel g p.1 p.2 i with
    | none => rw [hrr] at h; simp at h
    | some gj =>
      rw [hrr] at h
      exact ih gj.1 gj.2 gi h (rerollCell_total s fuel g p.1 p.2 i gj.1 gj.2
        (by rw [hrr]) htot)

theorem resolve_initial_total (s : Nat → Nat) :
    ∀ (fuel : Nat) (g : Grid) (i : Nat) (g2 : Grid) (i2 : Nat),
      resolve_all_matches_initial s fuel g i = (some g2, i2) → TotalGrid g →
      TotalGrid g2 := by
  intro fuel
  induction fuel with
  | zero =>
    intro g i g2 i2 h htot
    simp [resolve_all_matches_initial] at h
  | succ n ih =>
    intro g i g2 i2 h htot
    by_cases hm : find_matches g = ∅
    · simp only [resolve_all_matches_initial, if_pos hm] at h
      have h1 : some g = some g2 := congrArg Prod.fst h
      obtain rfl : g = g2 := Option.some.inj h1
      exact htot
    · simp only [resolve_all_matches_initial, if_neg hm] at h
      exact ih _ _ _ _ h (total_remove_and_collapse s g (find_matches g) i)

/-- Claim C10: in cute_number_crush, every in-bounds cell holds a tile at the
public interface: immediately after board construction and after every
`remove_and_collapse` call, `Board.get` returns a tile (never `None`) for
every in-bounds coordinate.  Emptiness exists only transiently inside
`remove_and_collapse`. -/
theorem grid_total_invariant :
    (∀ (s : Nat → Nat) (rows cols fuelR fuelS : Nat) (g : Grid) (i : Nat),
        initBoard s rows cols fuelR fuelS = some (g, i) → TotalGrid g) ∧
      ∀ (s : Nat → Nat) (g : Grid) (coords : Finset (Nat × Nat)) (i : Nat),
        TotalGrid (remove_and_collapse s g coords i).1 := by
  constructor
  · intro s rows cols fuelR fuelS g i h
    unfold initBoard at h
    cases hri : remove_initial_matches s fuelR (cellsList rows cols)
        (initFill s rows cols 0).1 (initFill s rows cols 0).2 with
    | none => rw [hri] at h; simp at h
    | some gi =>
      rw [hri] at h
      dsimp only [] at h
      cases hres : resolve_all_matches_initial s fuelS gi.1 gi.2 with
      | mk og i2 =>
        rw [hres] at h
        cases og with
        | none => simp at h
        | some g2 =>
          simp only [] at h
          have h' : (g2, i2) = (g, i) := Option.some.inj h
          have hg : g2 = g := congrArg Prod.fst h'
          subst hg
          exact resolve_initial_total s fuelS gi.1 gi.2 g2 i2 hres
            (remove_initial_total s fuelR (cellsList rows cols)
              (initFill s rows cols 0).1 (initFill s rows cols 0).2 gi hri
              (initFill_total s rows cols 0))
  · exact total_remove_and_collapse

theorem grid_total_invariant_witness :
    cellAt (remove_and_collapse zs [[some 0]] ∅ 0).1 0 0 ≠ none :=
  grid_total_invariant.2 zs [[some 0]] ∅ 0 0 0 (by decide) (by decide)

/-! ### BFS correctness (claims C5, C6) -/

theorem neighborsOf_bounds (rows cols : Nat) (p n : Nat × Nat)
    (h : n ∈ neighborsOf rows cols p) : n.1 < rows ∧ n.2 < cols := by
  unfold neighborsOf at h
  obtain ⟨d, _, hd⟩ := List.mem_filterMap.mp h
  by_cases hb : 0 ≤ (p.1 : Int) + d.1 ∧ (p.1 : Int) + d.1 < (rows : Int) ∧
      0 ≤ (p.2 : Int) + d.2 ∧ (p.2 : Int) + d.2 < (cols : Int)
  · rw [if_pos hb] at hd
    obtain ⟨hb1, hb2, hb3, hb4⟩ := hb
    have := Option.some.inj hd
    subst this
    constructor
    · simp only []
      omega
    · simp only []
      omega
  · rw [if_neg hb] at hd
    exact Option.noConfusion hd

theorem bfs_fold_spec (g : Grid) (t : Option Nat) :
    ∀ (ns : List (Nat × Nat)) (q0 : List (Nat × Nat))
      (v0 : Finset (Nat × Nat)) (gr0 : List (Nat × Nat)),
      ∃ added : List (Nat × Nat),
        (ns.foldl
          (fun acc n =>
            if n ∉ acc.2.1 ∧ cellAt g n.1 n.2 = t then
              (acc.1 ++ [n], insert n acc.2.1, acc.2.2 ++ [n])
            else acc)
          (q0, v0, gr0)) =
            (q0 ++ added, v0 ∪ added.toFinset, gr0 ++ added) ∧
        added.Nodup ∧
        (∀ n ∈ added, n ∈ ns ∧ n ∉ v0 ∧ cellAt g n.1 n.2 = t) ∧
        (∀ n ∈ ns, cellAt g n.1 n.2 = t → n ∈ v0 ∪ added.toFinset) := by
  intro ns
  induction ns with
  | nil =>
    intro q0 v0 gr0
    refine ⟨[], by simp, List.nodup_nil, by simp, by simp⟩
  | cons n ns ih =>
    intro q0 v0 gr0
    by_cases hg : n ∉ v0 ∧ cellAt g n.1 n.2 = t
    · obtain ⟨added, heq, hnd, hprops, hcover⟩ :=
        ih (q0 ++ [n]) (insert n v0) (gr0 ++ [n])
      refine ⟨n :: added, ?_, ?_, ?_, ?_⟩
      · rw [List.foldl_cons, if_pos hg, heq]
        refine Prod.ext ?_ (Prod.ext ?_ ?_)
        · simp
        · simp only []
          ext x
          simp only [Finset.mem_union, Finset.mem_insert, List.toFinset_cons,
            List.mem_toFinset]
          constructor
          · rintro (h | h)
            · rcases h with h | h
              · exact Or.inr (Or.inl h)
              · exact Or.inl h
            · exact Or.inr (Or.inr (by simpa using h))
          · rintro (h | h | h)
            · exact Or.inl (Or.inr h)
            · exact Or.inl (Or.inl h)
            · exact Or.inr (by simpa using h)
        · simp
      · apply List.nodup_cons.mpr
        refine ⟨?_, hnd⟩
        intro hmem
        obtain ⟨_, hnv, _⟩ := hprops n hmem
        exact hnv (Finset.mem_insert_self n v0)
      · intro m hm
        rcases List.mem_cons.mp hm with rfl | hm2
        · exact ⟨List.mem_cons_self .., hg.1, hg.2⟩
        · obtain ⟨h1, h2, h3⟩ := hprops m hm2
          exact ⟨List.mem_cons_of_mem n h1,
            fun hv => h2 (Finset.mem_insert_of_mem hv), h3⟩
      · intro m hm hval
        rcases List.mem_cons.mp hm with rfl | hm2
        · simp
        · have := hcover m hm2 hval
          rcases Finset.mem_union.mp this with h | h
          · rcases Finset.mem_insert.mp h with rfl | h
            · simp
            · exact Finset.mem_union.mpr (Or.inl h)
          · rw [List.mem_toFinset] at h
            apply Finset.mem_union.mpr
            refine Or.inr ?_
            rw [List.toFinset_cons]
            exact Finset.mem_insert_of_mem (List.mem_toFinset.mpr h)
    · obtain ⟨added, heq, hnd, hprops, hcover⟩ := ih q0 v0 gr0
      refine ⟨added, ?_, hnd, ?_, ?_⟩
      · rw [List.foldl_cons, if_neg hg]
        exact heq
      · intro m hm
        obtain ⟨h1, h2, h3⟩ := hprops m hm
        exact ⟨List.mem_cons_of_mem n h1, h2, h3⟩
      · intro m hm hval
        rcases List.mem_cons.mp hm with rfl | hm2
        · have hin : m ∈ v0 := by
            by_contra hcon
            exact hg ⟨hcon, hval⟩
          exact Finset.mem_union.mpr (Or.inl hin)
        · exact hcover m hm2 hval

theorem bfsAux_invariant (g : Grid) (t : Option Nat) (seed : Nat × Nat) :
    ∀ (fuel : Nat) (q : List (Nat × Nat)) (v : Finset (Nat × Nat))
      (gr : List (Nat × Nat)),
      (∀ x, x ∈ gr ↔ x ∈ v) →
      gr.Nodup →
      q.Nodup →
      (∀ x ∈ q, x ∈ v) →
      (∀ x ∈ v, x.1 < g.length ∧ x.2 < width g ∧ cellAt g x.1 x.2 = t) →
      (∀ x ∈ v, Reaches g t seed x) →
      (∀ x ∈ v, x ∉ q →
        ∀ n ∈ neighborsOf g.length (width g) x, cellAt g n.1 n.2 = t →
          n ∈ v) →
      g.length * width g - v.card + q.length ≤ fuel →
      ∃ Vf : Finset (Nat × Nat),
        v ⊆ Vf ∧
          (∀ x, x ∈ bfsAux g t fuel q v gr ↔ x ∈ Vf) ∧
          (bfsAux g t fuel q v gr).Nodup ∧
          (∀ x ∈ Vf, Reaches g t seed x) ∧
          (∀ x ∈ Vf, ∀ n ∈ neighborsOf g.length (width g) x,
            cellAt g n.1 n.2 = t → n ∈ Vf) := by
  intro fuel
  induction fuel with
  | zero =>
    intro q v gr h1 h1n h2 h3 h4 h5 h6 h7
    have hq : q = [] := by
      cases q with
      | nil => rfl
      | cons a as =>
        exfalso
        simp only [List.length_cons] at h7
        omega
    subst hq
    exact ⟨v, Finset.Subset.refl v, h1, h1n, h5,
      fun x hx => h6 x hx (by simp)⟩
  | succ fuel ih =>
    intro q v gr h1 h1n h2 h3 h4 h5 h6 h7
    cases q with
    | nil =>
      exact ⟨v, Finset.Subset.refl v, h1, h1n, h5,
        fun x hx => h6 x hx (by simp)⟩
    | cons p qrest =>
      obtain ⟨added, heq, hand, hprops, hcover⟩ :=
        bfs_fold_spec g t (neighborsOf g.length (width g) p) qrest v gr
      have hstep : bfsAux g t (fuel + 1) (p :: qrest) v gr =
          bfsAux g t fuel (qrest ++ added) (v ∪ added.toFinset)
            (gr ++ added) := by
        conv_lhs => rw [bfsAux]
        rw [heq]
      have hp_v : p ∈ v := h3 p (List.mem_cons_self ..)
      have hreach_p : Reaches g t seed p := h5 p hp_v
      have hdisj_added : ∀ a ∈ added, a ∉ v := fun a ha => (hprops a ha).2.1
      have h1' : ∀ x, x ∈ gr ++ added ↔ x ∈ v ∪ added.toFinset := by
        intro x
        simp only [List.mem_append, Finset.mem_union, List.mem_toFinset, h1]
      have h1n' : (gr ++ added).Nodup := by
        refine h1n.append hand ?_
        intro a ha hb
        exact hdisj_added a hb ((h1 a).mp ha)
      have h2' : (qrest ++ added).Nodup := by
        refine (List.nodup_cons.mp h2).2.append hand ?_
        intro a ha hb
        exact hdisj_added a hb (h3 a (List.mem_cons_of_mem p ha))
      have h3' : ∀ x ∈ qrest ++ added, x ∈ v ∪ added.toFinset := by
        intro x hx
        rcases List.mem_append.mp hx with hx | hx
        · exact Finset.mem_union.mpr
            (Or.inl (h3 x (List.mem_cons_of_mem p hx)))
        · exact Finset.mem_union.mpr (Or.inr (List.mem_toFinset.mpr hx))
      have h4' : ∀ x ∈ v ∪ added.toFinset,
          x.1 < g.length ∧ x.2 < width g ∧ cellAt g x.1 x.2 = t := by
        intro x hx
        rcases Finset.mem_union.mp hx with hx | hx
        · exact h4 x hx
        · rw [List.mem_toFinset] at hx
          obtain ⟨hnb, _, hval⟩ := hprops x hx
          obtain ⟨hb1, hb2⟩ := neighborsOf_bounds g.length (width g) p x hnb
          exact ⟨hb1, hb2, hval⟩
      have h5' : ∀ x ∈ v ∪ added.toFinset, Reaches g t seed x := by
        intro x hx
        rcases Finset.mem_union.mp hx with hx | hx
        · exact h5 x hx
        · rw [List.mem_toFinset] at hx
          obtain ⟨hnb, _, hval⟩ := hprops x hx
          exact Relation.ReflTransGen.tail hreach_p ⟨hnb, hval⟩
      have h6' : ∀ x ∈ v ∪ added.toFinset, x ∉ qrest ++ added →
          ∀ n ∈ neighborsOf g.length (width g) x, cellAt g n.1 n.2 = t →
            n ∈ v ∪ added.toFinset := by
        intro x hx hnq n hn hval
        rcases Finset.mem_union.mp hx with hx | hx
        · by_cases hxp : x = p
          · subst hxp
            exact hcover n hn hval
          · have hxq : x ∉ p :: qrest := by
              intro hc
              rcases List.mem_cons.mp hc with rfl | hc
              · exact hxp rfl
              · exact hnq (List.mem_append.mpr (Or.inl hc))
            exact Finset.mem_union.mpr (Or.inl (h6 x hx hxq n hn hval))
        · exfalso
          rw [List.mem_toFinset] at hx
          exact hnq (List.mem_append.mpr (Or.inr hx))
      have h7' : g.length * width g - (v ∪ added.toFinset).card +
          (qrest ++ added).length ≤ fuel := by
        have hdisj : Disjoint v added.toFinset := by
          rw [Finset.disjoint_right]
          intro a ha
          rw [List.mem_toFinset] at ha
          exact hdisj_added a ha
        have hcard : (v ∪ added.toFinset).card = v.card + added.length := by
          rw [Finset.card_union_of_disjoint hdisj,
            List.toFinset_card_of_nodup hand]
        have hsubN : v ∪ added.toFinset ⊆
            Finset.range g.length ×ˢ Finset.range (width g) := by
          intro x hx
          obtain ⟨hb1, hb2, _⟩ := h4' x hx
          rw [Finset.mem_product, Finset.mem_range, Finset.mem_range]
          exact ⟨hb1, hb2⟩
        have hN : (v ∪ added.toFinset).card ≤ g.length * width g := by
          have := Finset.card_le_card hsubN
          simpa [Finset.card_product] using this
        simp only [List.length_cons] at h7
        simp only [List.length_append]
        omega
      obtain ⟨Vf, hsub, hmem, hnodup, hreach, hclosed⟩ :=
        ih (qrest ++ added) (v ∪ added.toFinset) (gr ++ added)
          h1' h1n' h2' h3' h4' h5' h6' h7'
      refine ⟨Vf, ?_, ?_, ?_, hreach, hclosed⟩
      · exact Finset.Subset.trans Finset.subset_union_left hsub
      · intro x
        rw [hstep]
        exact hmem x
      · rw [hstep]
        exact hnodup

theorem bfs_group_correct (g : Grid) (t : Option Nat) (seed : Nat × Nat)
    (h1 : seed.1 < g.length) (h2 : seed.2 < width g)
    (hval : cellAt g seed.1 seed.2 = t) :
    (∀ x, x ∈ bfsAux g t (g.length * width g + 1) [seed] {seed} [seed] ↔
      Reaches g t seed x) ∧
      (bfsAux g t (g.length * width g + 1) [seed] {seed} [seed]).Nodup := by
  obtain ⟨Vf, hsub, hmem, hnodup, hreach, hclosed⟩ :=
    bfsAux_invariant g t seed (g.length * width g + 1) [seed] {seed} [seed]
      (by intro x; simp)
      (by simp)
      (by simp)
      (by intro x hx; rw [List.mem_singleton] at hx; subst hx; simp)
      (by
        intro x hx
        rw [Finset.mem_singleton] at hx
        subst hx
        exact ⟨h1, h2, hval⟩)
      (by
        intro x hx
        rw [Finset.mem_singleton] at hx
        subst hx
        exact Relation.ReflTransGen.refl)
      (by
        intro x hx hq
        exfalso
        apply hq
        rw [Finset.mem_singleton] at hx
        subst hx
        simp)
      (by
        rw [Finset.card_singleton]
        simp only [List.length_cons, List.length_nil]
        omega)
  refine ⟨?_, hnodup⟩
  intro x
  rw [hmem x]
  constructor
  · exact hreach x
  · intro hr
    have hr' : Relation.ReflTransGen (AdjStep g t) seed x := hr
    induction hr' with
    | refl => exact hsub (Finset.mem_singleton_self seed)
    | tail hab hbc ih =>
      exact hclosed _ (ih hab) _ hbc.1 hbc.2

theorem flood_group_eq (g : Grid) (r c v : Nat)
    (hval : cellAt g r c = some v) :
    NumberSmash.flood_group g r c =
      bfsAux g (some v) (g.length * width g + 1) [(r, c)] {(r, c)}
        [(r, c)] := by
  unfold NumberSmash.flood_group
  rw [hval]

theorem find_group_eq (g : Grid) (r c v : Nat)
    (hval : cellAt g r c = some v) (hsm : v = 0 ∨ v = 1) :
    NumberStack.find_group g r c =
      bfsAux g (some v) (g.length * width g + 1) [(r, c)] {(r, c)}
        [(r, c)] := by
  unfold NumberStack.find_group
  rw [hval]
  rw [if_pos ?_]
  rcases hsm with rfl | rfl
  · exact Or.inl rfl
  · exact Or.inr rfl

theorem length_two_iff_exists_other {grp : List (Nat × Nat)}
    {seed : Nat × Nat} (hnd : grp.Nodup) (hseed : seed ∈ grp) :
    2 ≤ grp.length ↔ ∃ y ∈ grp, y ≠ seed := by
  constructor
  · intro hlen
    cases grp with
    | nil => simp at hseed
    | cons a tail =>
      cases tail with
      | nil => simp at hlen
      | cons b rest =>
        by_cases hab : a = seed
        · refine ⟨b, by simp, ?_⟩
          subst hab
          intro hb
          subst hb
          exact (List.nodup_cons.mp hnd).1 (List.mem_cons_self ..)
        · exact ⟨a, by simp, hab⟩
  · rintro ⟨y, hy, hne⟩
    have hsub : ({seed, y} : Finset (Nat × Nat)) ⊆ grp.toFinset := by
      intro z hz
      rcases Finset.mem_insert.mp hz with rfl | hz
      · exact List.mem_toFinset.mpr hseed
      · rw [Finset.mem_singleton] at hz
        subst hz
        exact List.mem_toFinset.mpr hy
    have hc2 : ({seed, y} : Finset (Nat × Nat)).card = 2 :=
      Finset.card_pair (Ne.symm hne)
    calc 2 = ({seed, y} : Finset (Nat × Nat)).card := hc2.symm
      _ ≤ grp.toFinset.card := Finset.card_le_card hsub
      _ = grp.length := List.toFinset_card_of_nodup hnd

/-- Claim C5: the connectivity scan (as the smash operations use it) returns
the empty set when the seed's value is not smashable (not 0 or 1); otherwise
it computes exactly the 4-connected region of cells with the seed's value
(breadth-first over up/down/left/right neighbours), and the removal set is
empty when that region has fewer than 2 members (that is, when no cell other
than the seed is reachable). -/
theorem connectivity_scan_correct (s : Nat → Nat) (g : Grid) (r c i : Nat)
    (v : Nat) (hr : r < g.length) (hc : c < width g)
    (hval : cellAt g r c = some v) :
    (¬(v = 0 ∨ v = 1) →
      (NumberSmash.smash_at s g r c i).removed = [] ∧
        (NumberSmash.smash_at s g r c i).ok = false ∧
        NumberStack.find_group g r c = [] ∧
        (NumberStack.smash g r c).removed = []) ∧
    ((v = 0 ∨ v = 1) →
      (∀ x, x ∈ NumberStack.find_group g r c ↔
        Reaches g (some v) (r, c) x) ∧
      (∀ x, x ∈ (NumberSmash.smash_at s g r c i).removed ↔
        (Reaches g (some v) (r, c) x ∧
          ∃ y, Reaches g (some v) (r, c) y ∧ y ≠ (r, c))) ∧
      (∀ x, x ∈ (NumberStack.smash g r c).removed ↔
        (Reaches g (some v) (r, c) x ∧
          ∃ y, Reaches g (some v) (r, c) y ∧ y ≠ (r, c)))) := by
  have hguard : (cellAt g r c = some 0 ∨ cellAt g r c = some 1) ↔
      (v = 0 ∨ v = 1) := by
    rw [hval]
    constructor
    · rintro (h | h)
      · exact Or.inl (Option.some.inj h)
      · exact Or.inr (Option.some.inj h)
    · rintro (rfl | rfl)
      · exact Or.inl rfl
      · exact Or.inr rfl
  constructor
  · intro hnot
    refine ⟨?_, ?_, ?_, ?_⟩
    · unfold NumberSmash.smash_at
      rw [hval]
      dsimp only []
      rw [if_neg hnot]
    · unfold NumberSmash.smash_at
      rw [hval]
      dsimp only []
      rw [if_neg hnot]
    · unfold NumberStack.find_group
      rw [if_neg (fun h => hnot (hguard.mp h))]
    · unfold NumberStack.smash
      rw [if_neg (fun h => hnot (hguard.mp h))]
  · intro hsm
    obtain ⟨hiff, hnd⟩ := bfs_group_correct g (some v) (r, c) hr hc hval
    have hflood := flood_group_eq g r c v hval
    have hfind := find_group_eq g r c v hval hsm
    have hiff2 : ∀ x, x ∈ NumberSmash.flood_group g r c ↔
        Reaches g (some v) (r, c) x := by
      intro x
      rw [hflood]
      exact hiff x
    have hseed : (r, c) ∈ NumberSmash.flood_group g r c :=
      (hiff2 _).mpr Relation.ReflTransGen.refl
    have hndf : (NumberSmash.flood_group g r c).Nodup := by
      rw [hflood]
      exact hnd
    have hsize := length_two_iff_exists_other hndf hseed
    have hex : (∃ y ∈ NumberSmash.flood_group g r c, y ≠ (r, c)) ↔
        (∃ y, Reaches g (some v) (r, c) y ∧ y ≠ (r, c)) := by
      constructor
      · rintro ⟨y, hy, hne⟩
        exact ⟨y, (hiff2 y).mp hy, hne⟩
      · rintro ⟨y, hy, hne⟩
        exact ⟨y, (hiff2 y).mpr hy, hne⟩
    have hfg : NumberStack.find_group g r c = NumberSmash.flood_group g r c := by
      rw [hfind, hflood]
    refine ⟨?_, ?_, ?_⟩
    · intro x
      rw [hfg]
      exact hiff2 x
    · intro x
      unfold NumberSmash.smash_at
      rw [hval]
      dsimp only []
      rw [if_pos hsm]
      by_cases hlen : (NumberSmash.flood_group g r c).length < 2
      · rw [if_pos hlen]
        dsimp only []
        simp only [List.not_mem_nil, false_iff]
        rintro ⟨_, hexr⟩
        have h2 : 2 ≤ (NumberSmash.flood_group g r c).length :=
          hsize.mpr (hex.mpr hexr)
        omega
      · rw [if_neg hlen]
        dsimp only []
        constructor
        · intro hx
          exact ⟨(hiff2 x).mp hx, hex.mp (hsize.mp (by omega))⟩
        · rintro ⟨hx, _⟩
          exact (hiff2 x).mpr hx
    · intro x
      unfold NumberStack.smash
      rw [if_pos (hguard.mpr hsm)]
      dsimp only []
      rw [hfg]
      by_cases hlen : (NumberSmash.flood_group g r c).length < 2
      · rw [if_pos hlen]
        dsimp only []
        simp only [List.not_mem_nil, false_iff]
        rintro ⟨_, hexr⟩
        have h2 : 2 ≤ (NumberSmash.flood_group g r c).length :=
          hsize.mpr (hex.mpr hexr)
        omega
      · rw [if_neg hlen]
        dsimp only []
        constructor
        · intro hx
          exact ⟨(hiff2 x).mp hx, hex.mp (hsize.mp (by omega))⟩
        · rintro ⟨hx, _⟩
          exact (hiff2 x).mpr hx

theorem connectivity_scan_correct_witness :
    (0, 1) ∈ NumberStack.find_group [[some 1, some 1], [some 2, some 3]] 0 0 ↔
      Reaches [[some 1, some 1], [some 2, some 3]] (some 1) (0, 0) (0, 1) :=
  ((connectivity_scan_correct zs [[some 1, some 1], [some 2, some 3]] 0 0 0 1
    (by decide) (by decide) (by decide)).2 (Or.inr rfl)).1 (0, 1)

/-- Claim C6, counterexample: in number_stack.py an accepted smash scores
`len(group) * 10`, not `groupSize * (value + 1)`.  Smashing the group of two
0s on the grid `[[0, 0]]` yields a delta of 20, where the claim demands
`2 * (0 + 1) = 2`. -/
theorem stack_score_counterexample :
    (NumberStack.smash [[some 0, some 0]] 0 0).removed.length = 2 ∧
      (NumberStack.smash [[some 0, some 0]] 0 0).gain = 20 ∧
      ¬((NumberStack.smash [[some 0, some 0]] 0 0).gain =
        (NumberStack.smash [[some 0, some 0]] 0 0).removed.length * (0 + 1)) :=
  ⟨by decide, by decide, by decide⟩

/-- Claim C6 (amended): in number_smash, every accepted smash of a group of
size n whose seed value is v increases the score by exactly n * (v + 1)
(in particular a group of 5 cells valued 1 yields 10); in number_stack, an
accepted smash increases the score by n * 10 regardless of the value. -/
theorem smash_score_amended (s : Nat → Nat) (g : Grid) (r c i v : Nat)
    (hval : cellAt g r c = some v) (hsm : v = 0 ∨ v = 1)
    (hlen : 2 ≤ (NumberSmash.flood_group g r c).length) :
    (NumberSmash.smash_at s g r c i).ok = true ∧
      (NumberSmash.smash_at s g r c i).gain =
        (NumberSmash.smash_at s g r c i).removed.length * (v + 1) ∧
      (NumberStack.smash g r c).gain =
        (NumberStack.smash g r c).removed.length * 10 := by
  have hguard : cellAt g r c = some 0 ∨ cellAt g r c = some 1 := by
    rcases hsm with rfl | rfl
    · exact Or.inl hval
    · exact Or.inr hval
  have hnot2 : ¬(NumberSmash.flood_group g r c).length < 2 := by omega
  refine ⟨?_, ?_, ?_⟩
  · unfold NumberSmash.smash_at
    rw [hval]
    dsimp only []
    rw [if_pos hsm, if_neg hnot2]
  · unfold NumberSmash.smash_at
    rw [hval]
    dsimp only []
    rw [if_pos hsm, if_neg hnot2]
  · have hfg : NumberStack.find_group g r c = NumberSmash.flood_group g r c := by
      rw [find_group_eq g r c v hval hsm, flood_group_eq g r c v hval]
    have hnot2s : ¬(NumberStack.find_group g r c).length < 2 := by
      rw [hfg]
      omega
    unfold NumberStack.smash
    rw [if_pos hguard]
    dsimp only []
    rw [if_neg hnot2s]

theorem smash_score_amended_witness :
    (NumberSmash.smash_at zs [[some 1, some 1, some 1, some 1, some 1]]
        0 0 0).ok = true ∧
      (NumberSmash.smash_at zs [[some 1, some 1, some 1, some 1, some 1]]
          0 0 0).gain =
        (NumberSmash.smash_at zs [[some 1, some 1, some 1, some 1, some 1]]
            0 0 0).removed.length * (1 + 1) ∧
      (NumberStack.smash [[some 1, some 1, some 1, some 1, some 1]]
          0 0).gain =
        (NumberStack.smash [[some 1, some 1, some 1, some 1, some 1]]
            0 0).removed.length * 10 :=
  smash_score_amended zs [[some 1, some 1, some 1, some 1, some 1]] 0 0 0 1
    (by decide) (Or.inr rfl) (by decide)
